import Mathlib

/-!
Verification development for the mfer-node overlay state engine
(package mferstate: OverlayState in part_000, OverlayStateDB in part_001).

Shallow embedding conventions:
- Addresses, 32-byte slot keys, slot values, tx hashes are modelled as Nat
  identifiers; raw scratchpad values are byte lists (List Nat).
- The six 32-byte domain tags (BALANCE_KEY .. SUICIDE_KEY) are distinct
  keccak constants in the source; they are modelled as constructors of an
  inductive key type, so calcKey / calcStateKey become injective
  constructors.
- The upstream JSON-RPC endpoint at the pinned block is a pure record of
  functions (Upstream); keccak256 is a field of it, since the fetcher
  derives code hashes locally with it.
- The scratchpad map[string][]byte is a function SPKey -> Option Bytes.
- The parent-linked OverlayState chain is the inductive OverlayState:
  the root constructor carries the root-only fields (rpcCnt, batchSize),
  every layer carries scratchpad, txLogs, receipts and the current tx and
  block hashes, exactly the fields the claims touch.
- Mutation is explicit state passing: OverlayState.get returns the value
  and the updated chain (the root scratchpad caches fetched data).
- Goroutines, mutexes and timers are not modelled; the coalescer tick is
  modelled as the deterministic drain of the pending request list
  (storageTick below), which is what the batching claims quantify over.
-/

/-! ## Bytes and integer encodings -/

abbrev Bytes := List Nat
abbrev Address := Nat
abbrev Word := Nat
abbrev Log := Nat

/-- Big-endian minimal byte encoding of a Nat, as produced by the Bytes
method of a non-negative go big.Int: zero encodes as the empty slice.
The first argument is fuel (call with fuel at least n, see natToBytes). -/
def natToBytesAux : Nat → Nat → Bytes
  | 0, _ => []
  | fuel + 1, n => if n = 0 then [] else natToBytesAux fuel (n / 256) ++ [n % 256]

/-- Big-endian minimal byte encoding of a Nat (big.Int Bytes). -/
def natToBytes (n : Nat) : Bytes := natToBytesAux n n

/-- Big-endian byte decoding (big.Int SetBytes). -/
def bytesToNat (bs : Bytes) : Nat := bs.foldl (fun acc b => acc * 256 + b) 0

/-- The all-zero 32-byte hash (common.Hash zero value). -/
def zeroHash32 : Bytes := List.replicate 32 0

/-- Left-pad a byte string with zeros to 32 bytes (no-op when longer). -/
def pad32 (bs : Bytes) : Bytes := List.replicate (32 - bs.length) 0 ++ bs

/-- common.BytesToHash followed by Hash.Bytes: left-pad short input,
keep the last 32 bytes of long input. -/
def toHash32 (bs : Bytes) : Bytes :=
  if bs.length ≤ 32 then pad32 bs else bs.drop (bs.length - 32)

/-- The 32 bytes of a hash-valued Word (Hash.Bytes of the value). -/
def word32Bytes (w : Word) : Bytes := pad32 (natToBytes w)

/-- Numeric value of a byte string read as a common.Hash: the last 32
bytes, big-endian (SetBytes crops from the left). -/
def bytesToWord (bs : Bytes) : Word := bytesToNat (bs.drop (bs.length - 32))

/-- Truncation to uint64 (big.Int Uint64, go uint64 conversions). -/
def toUint64 (n : Nat) : Nat := n % 2 ^ 64

/-- Absolute value of int64(n) for a uint64 n: the source stores nonces
via big.NewInt(int64(nonce)).Bytes(), and Bytes of a negative big.Int
yields the absolute value. -/
def int64Abs (n : Nat) : Nat := if n < 2 ^ 63 then n else 2 ^ 64 - n

/-- The byte string the source stores for a nonce n:
big.NewInt(int64(uint64 n)).Bytes(). -/
def goNonceBytes (n : Nat) : Bytes := natToBytes (int64Abs (toUint64 n))

/-! ## Canonical keys (calcKey / calcStateKey with the six domain tags) -/

/-- The five per-account domain tags BALANCE_KEY, NONCE_KEY, CODE_KEY,
CODEHASH_KEY, SUICIDE_KEY; the STATE_KEY tag appears inside stateKey keys. -/
inductive DomainTag
  | balanceKey
  | nonceKey
  | codeKey
  | codehashKey
  | suicideKey
deriving DecidableEq, Repr

/-- A canonical scratchpad key: calcKey(tag, addr) or
calcStateKey(addr, slot) = STATE_KEY tag plus addr plus slot. -/
inductive SPKey
  | key (tag : DomainTag) (addr : Address)
  | stateKey (addr : Address) (slot : Word)
deriving DecidableEq, Repr

/-- A scratchpad: map from canonical keys to raw byte values. -/
def SP := SPKey → Option Bytes

/-- Map insertion (scratchPad[k] = v). -/
def SP.insert (m : SP) (k : SPKey) (v : Bytes) : SP :=
  fun k2 => if k2 = k then some v else m k2

/-- The empty scratchpad (make(map[string][]byte)). -/
def SP.empty : SP := fun _ => none

/-! ## Upstream endpoint and the account fetcher -/

/-- The upstream JSON-RPC endpoint pinned at a block: the values that
eth_getBalance, eth_getTransactionCount, eth_getCode and
eth_getStorageAt return there, plus the keccak256 function the fetcher
uses to derive code hashes. -/
structure Upstream where
  balance : Address → Nat
  nonce : Address → Nat
  code : Address → Bytes
  storage : Address → Word → Word
  keccak : Bytes → Bytes

/-- Code hash derivation after fetchAccounts: common.Hash zero value for
empty code, else Keccak256Hash(code) (a common.Hash, hence 32 bytes). -/
def goCodeHashBytes (U : Upstream) (a : Address) : Bytes :=
  if U.code a = [] then zeroHash32 else toHash32 (U.keccak (U.code a))

/-- FetchedAccountResult after loadAccountBatchRPC post-processing. -/
structure FetchedAccountResult where
  balance : Nat
  nonce : Nat
  code : Bytes
  codeHash : Bytes

/-- The account triple (plus derived code hash) loadAccount delivers for
one address. -/
def fetchAccount (U : Upstream) (a : Address) : FetchedAccountResult :=
  { balance := U.balance a
    nonce := toUint64 (U.nonce a)
    code := U.code a
    codeHash := goCodeHashBytes U a }

/-! ## The overlay chain -/

/-- Receipt: only the fields the claims observe (GetReceipt overwrites
the Logs field on every read). -/
structure Receipt where
  gasUsed : Nat
  logs : List Log
deriving DecidableEq, Repr

/-- The per-layer fields of OverlayState. -/
structure LayerData where
  scratchPad : SP
  txLogs : Word → List Log
  receipts : Word → Option Receipt
  currentTxHash : Word
  currentBlockHash : Word

/-- The root-only OverlayState fields the claims touch, plus the layer
fields (the root also owns a scratchpad, txLogs and receipts maps). -/
structure RootData where
  scratchPad : SP
  txLogs : Word → List Log
  receipts : Word → Option Receipt
  currentTxHash : Word
  currentBlockHash : Word
  rpcCnt : Nat
  batchSize : Nat

/-- View of the root as plain layer data (for the log/receipt chain
walks, which treat the root as one more layer). -/
def RootData.toLayer (r : RootData) : LayerData :=
  { scratchPad := r.scratchPad
    txLogs := r.txLogs
    receipts := r.receipts
    currentTxHash := r.currentTxHash
    currentBlockHash := r.currentBlockHash }

/-- The parent-linked OverlayState chain: the root (parent == nil) or a
derived layer above a parent chain. -/
inductive OverlayState
  | root (r : RootData)
  | layer (parent : OverlayState) (l : LayerData)

namespace OverlayState

/-- deriveCnt: 0 at the root, parent plus one on every Derive. -/
def deriveCnt : OverlayState → Nat
  | .root _ => 0
  | .layer p _ => p.deriveCnt + 1

/-- Scratchpad of the current (top) layer. -/
def topSP : OverlayState → SP
  | .root r => r.scratchPad
  | .layer _ l => l.scratchPad

/-- currentTxHash of the current layer. -/
def curTx : OverlayState → Word
  | .root r => r.currentTxHash
  | .layer _ l => l.currentTxHash

/-- currentBlockHash of the current layer. -/
def curBlk : OverlayState → Word
  | .root r => r.currentBlockHash
  | .layer _ l => l.currentBlockHash

/-- Root scratchpad of the chain. -/
def rootSP : OverlayState → SP
  | .root r => r.scratchPad
  | .layer p _ => p.rootSP

/-- Root rpcCnt of the chain (RPCRequestCount reads it). -/
def rootRpc : OverlayState → Nat
  | .root r => r.rpcCnt
  | .layer p _ => p.rootRpc

/-- Derive: push a fresh child layer; it starts with an empty scratchpad
and empty log and receipt maps and inherits currentTxHash and
currentBlockHash from the parent. -/
def Derive (s : OverlayState) : OverlayState :=
  .layer s
    { scratchPad := SP.empty
      txLogs := fun _ => []
      receipts := fun _ => none
      currentTxHash := s.curTx
      currentBlockHash := s.curBlk }

/-- Write a raw value into the current layer scratchpad
(db.state.scratchPad[k] = v, the write path of every setter). -/
def writeTop (s : OverlayState) (k : SPKey) (v : Bytes) : OverlayState :=
  match s with
  | .root r => .root { r with scratchPad := r.scratchPad.insert k v }
  | .layer p l => .layer p { l with scratchPad := l.scratchPad.insert k v }

/-- First-hit chain lookup of a canonical key, walking child to parent
down to the root scratchpad (the pure shadow of the read path). -/
def lookup : OverlayState → SPKey → Option Bytes
  | .root r, k => r.scratchPad k
  | .layer p l, k =>
    match l.scratchPad k with
    | some v => some v
    | none => p.lookup k

end OverlayState

/-! ## The get pipeline (OverlayState.get in part_000, lines 453-529) -/

/-- RequestType of the get pipeline. -/
inductive RequestType
  | getBalance
  | getNonce
  | getCode
  | getCodehash
  | getState
deriving DecidableEq, Repr

/-- The scratchpad key get computes for a request (the switch at the top
of OverlayState.get). -/
def rtKey (a : Address) (act : RequestType) (slot : Word) : SPKey :=
  match act with
  | .getBalance => .key .balanceKey a
  | .getNonce => .key .nonceKey a
  | .getCode => .key .codeKey a
  | .getCodehash => .key .codehashKey a
  | .getState => .stateKey a slot

/-- Insert only when the key is still absent (the pattern
if _, ok := scratchPad[k]; !ok then scratchPad[k] = v). -/
def condInsert (sp : SP) (k : SPKey) (v : Bytes) : SP :=
  if (sp k).isSome then sp else sp.insert k v

/-- The insert-if-absent population of the four account entries after a
loadAccount fetch (the write-locked block of the account branch):
balance, then nonce (through the int64 conversion), then code, then the
derived code hash, each only when its key is still absent. -/
def populateAccount (sp : SP) (a : Address) (fr : FetchedAccountResult) : SP :=
  condInsert (condInsert (condInsert (condInsert sp
      (.key .balanceKey a) (natToBytes fr.balance))
      (.key .nonceKey a) (natToBytes (int64Abs fr.nonce)))
      (.key .codeKey a) fr.code)
      (.key .codehashKey a) fr.codeHash

/-- OverlayState.get: at the root, return the cached value or fetch (one
slot via loadState, bumping rpcCnt once per flush, or a whole account
triple via loadAccount) and cache it insert-if-absent; at a non-root
layer, return the layer value on hit, else recurse into the parent.
Returns the value and the updated chain. -/
def OverlayState.get (U : Upstream) :
    OverlayState → Address → RequestType → Word → Bytes × OverlayState
  | .root r, a, act, slot =>
    match r.scratchPad (rtKey a act slot) with
    | some v => (v, .root r)
    | none =>
      match act with
      | .getState =>
        let result := U.storage a slot
        (word32Bytes result,
          .root { r with
                  scratchPad := r.scratchPad.insert (rtKey a .getState slot)
                                  (word32Bytes result)
                  rpcCnt := r.rpcCnt + 1 })
      | act =>
        let sp := populateAccount r.scratchPad a (fetchAccount U a)
        ((sp (rtKey a act slot)).getD [], .root { r with scratchPad := sp })
  | .layer p l, a, act, slot =>
    match l.scratchPad (rtKey a act slot) with
    | some v => (v, .layer p l)
    | none =>
      let res := OverlayState.get U p a act slot
      (res.1, .layer res.2 l)

/-! ## The State-DB facade (OverlayStateDB, part_001) -/

namespace OverlayStateDB

/-- GetOverlayDepth: the deriveCnt of the current layer. -/
def GetOverlayDepth (s : OverlayState) : Nat := s.deriveCnt

/-- RPCRequestCount: the root rpcCnt counter. -/
def RPCRequestCount (s : OverlayState) : Nat := s.rootRpc

/-- GetBalance: get BALANCE and decode big-endian (big.Int SetBytes).
Returns the value and the updated chain (the get may cache upstream
data at the root). -/
def GetBalance (U : Upstream) (s : OverlayState) (a : Address) : Nat × OverlayState :=
  let r := s.get U a .getBalance 0
  (bytesToNat r.1, r.2)

/-- SetBalance: write balance.Bytes() into the current layer. -/
def SetBalance (s : OverlayState) (a : Address) (v : Nat) : OverlayState :=
  s.writeTop (.key .balanceKey a) (natToBytes v)

/-- SubBalance: read-modify-write: get BALANCE, subtract delta with
big.Int Sub, store post.Bytes() into the current layer (Bytes of a
negative big.Int is the byte string of its absolute value). -/
def SubBalance (U : Upstream) (s : OverlayState) (a : Address) (delta : Nat) : OverlayState :=
  let r := s.get U a .getBalance 0
  r.2.writeTop (.key .balanceKey a) (natToBytes ((bytesToNat r.1 - delta : Int)).natAbs)

/-- AddBalance: read-modify-write: get BALANCE, add delta, store the
sum into the current layer. -/
def AddBalance (U : Upstream) (s : OverlayState) (a : Address) (delta : Nat) : OverlayState :=
  let r := s.get U a .getBalance 0
  r.2.writeTop (.key .balanceKey a) (natToBytes (bytesToNat r.1 + delta))

/-- GetNonce: get NONCE, decode big-endian, truncate with Uint64. -/
def GetNonce (U : Upstream) (s : OverlayState) (a : Address) : Nat × OverlayState :=
  let r := s.get U a .getNonce 0
  (toUint64 (bytesToNat r.1), r.2)

/-- SetNonce: store big.NewInt(int64(nonce)).Bytes() into the current
layer. -/
def SetNonce (s : OverlayState) (a : Address) (v : Nat) : OverlayState :=
  s.writeTop (.key .nonceKey a) (goNonceBytes v)

/-- GetCode: get CODE (raw bytecode). -/
def GetCode (U : Upstream) (s : OverlayState) (a : Address) : Bytes × OverlayState :=
  s.get U a .getCode 0

/-- SetCode: write raw bytecode into the current layer. -/
def SetCode (s : OverlayState) (a : Address) (c : Bytes) : OverlayState :=
  s.writeTop (.key .codeKey a) c

/-- GetCodeHash: get CODEHASH, view as common.Hash. -/
def GetCodeHash (U : Upstream) (s : OverlayState) (a : Address) : Bytes × OverlayState :=
  let r := s.get U a .getCodehash 0
  (toHash32 r.1, r.2)

/-- SetCodeHash: write codeHash.Bytes() into the current layer. -/
def SetCodeHash (s : OverlayState) (a : Address) (h : Word) : OverlayState :=
  s.writeTop (.key .codehashKey a) (word32Bytes h)

/-- GetCommittedState: get STATE, view as common.Hash value. -/
def GetCommittedState (U : Upstream) (s : OverlayState) (a : Address) (k : Word) :
    Word × OverlayState :=
  let r := s.get U a .getState k
  (bytesToWord r.1, r.2)

/-- GetState delegates to GetCommittedState. -/
def GetState (U : Upstream) (s : OverlayState) (a : Address) (k : Word) :
    Word × OverlayState :=
  GetCommittedState U s a k

/-- SetState: write value.Bytes() into the current layer. -/
def SetState (s : OverlayState) (a : Address) (k v : Word) : OverlayState :=
  s.writeTop (.stateKey a k) (word32Bytes v)

/-- Suicide: write the single byte 0x01 under the SUICIDE key of the
current layer and return true. -/
def Suicide (s : OverlayState) (a : Address) : Bool × OverlayState :=
  (true, s.writeTop (.key .suicideKey a) [1])

/-- HasSuicided: look only at the current layer scratchpad; true iff the
SUICIDE entry is present and equals 0x01. -/
def HasSuicided (s : OverlayState) (a : Address) : Bool :=
  match s.topSP (.key .suicideKey a) with
  | some v => v = [1]
  | none => false

/-- Snapshot: derive a child layer, make it current, return its
deriveCnt as the revision id. -/
def Snapshot (s : OverlayState) : Nat × OverlayState :=
  let s2 := s.Derive
  (s2.deriveCnt, s2)

/-- The RevertToSnapshot walk: pop layers until deriveCnt + 1 equals the
revision id; walking past the root is a nil dereference in the source,
modelled as none. -/
def revertLoop : OverlayState → Nat → Option OverlayState
  | .root r, id => if (OverlayState.root r).deriveCnt + 1 = id then some (.root r) else none
  | .layer p l, id =>
    if (OverlayState.layer p l).deriveCnt + 1 = id then some (.layer p l)
    else revertLoop p id

/-- RevertToSnapshot: start from the parent of the current layer and run
the revert walk (the source crashes when invoked on the root: Parent()
of the root is nil). -/
def RevertToSnapshot (s : OverlayState) (id : Nat) : Option OverlayState :=
  match s with
  | .root _ => none
  | .layer p _ => revertLoop p id

/-- Overwrite-copy of a whole child scratchpad into a parent scratchpad
(the range loop of MergeTo: every child entry overwrites the parent
entry, other parent entries stay). -/
def SP.mergeOver (child parent : SP) : SP :=
  fun k => match child k with
  | some v => some v
  | none => parent k

/-- Replace the top scratchpad of a chain by a function of itself. -/
def mapTopSP (f : SP → SP) : OverlayState → OverlayState
  | .root r => .root { r with scratchPad := f r.scratchPad }
  | .layer p l => .layer p { l with scratchPad := f l.scratchPad }

/-- The MergeTo walk: while the current layer is not at the target
deriveCnt, copy its scratchpad into the parent (overwriting) and step
down. Fuel bounds the walk by the number of layers; walking past the
root is a nil-map write in the source, modelled as none. -/
def mergeLoop : Nat → OverlayState → Nat → Option OverlayState
  | 0, s, id => if s.deriveCnt = id then some s else none
  | fuel + 1, s, id =>
    if s.deriveCnt = id then some s
    else match s with
      | .root _ => none
      | .layer p l => mergeLoop fuel (mapTopSP (SP.mergeOver l.scratchPad) p) id

/-- MergeTo: fold every layer above the target into its parent until the
layer with deriveCnt = id becomes current. -/
def MergeTo (s : OverlayState) (id : Nat) : Option OverlayState :=
  mergeLoop s.deriveCnt s id

/-- AddLog: append the log to the current layer under the current tx
hash. -/
def AddLog (s : OverlayState) (l : Log) : OverlayState :=
  match s with
  | .root r =>
    .root { r with txLogs := fun tx =>
              if tx = r.currentTxHash then r.txLogs tx ++ [l] else r.txLogs tx }
  | .layer p ld =>
    .layer p { ld with txLogs := fun tx =>
                 if tx = ld.currentTxHash then ld.txLogs tx ++ [l] else ld.txLogs tx }

/-- The GetLogs accumulator loop: walk from the current layer to the
root inclusive, prepending each layer's logs for the tx hash, so the
result is in root-to-leaf order. -/
def getLogsLoop : OverlayState → Word → List Log → List Log
  | .root r, tx, acc => r.txLogs tx ++ acc
  | .layer p l, tx, acc => getLogsLoop p tx (l.txLogs tx ++ acc)

/-- GetLogs: concatenation of the logs recorded for the tx hash across
the whole chain, root first. -/
def GetLogs (s : OverlayState) (tx : Word) : List Log :=
  getLogsLoop s tx []

/-- AddReceipt: store the receipt in the current layer. -/
def AddReceipt (s : OverlayState) (tx : Word) (rc : Receipt) : OverlayState :=
  match s with
  | .root r => .root { r with receipts := fun t => if t = tx then some rc else r.receipts t }
  | .layer p ld =>
    .layer p { ld with receipts := fun t => if t = tx then some rc else ld.receipts t }

/-- The GetReceipt walk: from the current layer toward the root, return
the first receipt found; the walk returns nil upon reaching the root
without consulting the root receipts map. -/
def getReceiptWalk : OverlayState → Word → Option Receipt
  | .root _, _ => none
  | .layer p l, tx =>
    match l.receipts tx with
    | some r => some r
    | none => getReceiptWalk p tx

/-- GetReceipt: first receipt on the walk, with its Logs field set to
GetLogs of the whole chain. -/
def GetReceipt (s : OverlayState) (tx : Word) : Option Receipt :=
  (getReceiptWalk s tx).map (fun r => { r with logs := GetLogs s tx })

/-- StartLogCollection: set currentTxHash and currentBlockHash on the
current layer. -/
def StartLogCollection (s : OverlayState) (tx blk : Word) : OverlayState :=
  match s with
  | .root r => .root { r with currentTxHash := tx, currentBlockHash := blk }
  | .layer p ld => .layer p { ld with currentTxHash := tx, currentBlockHash := blk }

end OverlayStateDB

/-! ## Write sequences (the setter, log and receipt writes of the facade) -/

/-- One facade write: the scratchpad setters, the read-modify-write
balance ops, Suicide, and the log and receipt writes. -/
inductive WriteOp
  | setBalance (a : Address) (v : Nat)
  | addBalance (a : Address) (d : Nat)
  | subBalance (a : Address) (d : Nat)
  | setNonce (a : Address) (v : Nat)
  | setCode (a : Address) (c : Bytes)
  | setCodeHash (a : Address) (h : Word)
  | setState (a : Address) (k v : Word)
  | suicide (a : Address)
  | addLog (l : Log)
  | addReceipt (tx : Word) (rc : Receipt)
  | startLogCollection (tx blk : Word)

/-- True for the writes that only touch the current layer scratchpad
(everything except log, receipt and log-collection writes). -/
def WriteOp.isStateWrite : WriteOp → Bool
  | .addLog _ => false
  | .addReceipt _ _ => false
  | .startLogCollection _ _ => false
  | _ => true

/-- Apply one facade write to the chain. -/
def applyWrite (U : Upstream) (s : OverlayState) : WriteOp → OverlayState
  | .setBalance a v => OverlayStateDB.SetBalance s a v
  | .addBalance a d => OverlayStateDB.AddBalance U s a d
  | .subBalance a d => OverlayStateDB.SubBalance U s a d
  | .setNonce a v => OverlayStateDB.SetNonce s a v
  | .setCode a c => OverlayStateDB.SetCode s a c
  | .setCodeHash a h => OverlayStateDB.SetCodeHash s a h
  | .setState a k v => OverlayStateDB.SetState s a k v
  | .suicide a => (OverlayStateDB.Suicide s a).2
  | .addLog l => OverlayStateDB.AddLog s l
  | .addReceipt tx rc => OverlayStateDB.AddReceipt s tx rc
  | .startLogCollection tx blk => OverlayStateDB.StartLogCollection s tx blk

/-- Apply a sequence of facade writes in order. -/
def applyWrites (U : Upstream) (s : OverlayState) (W : List WriteOp) : OverlayState :=
  W.foldl (applyWrite U) s

/-! ## Spec-side views used to state the claims -/

/-- The byte string the root scratchpad caches for a canonical key when
it is fetched from upstream; SUICIDE keys are never fetched. -/
def upstreamVal (U : Upstream) : SPKey → Option Bytes
  | .key .balanceKey a => some (natToBytes (U.balance a))
  | .key .nonceKey a => some (goNonceBytes (U.nonce a))
  | .key .codeKey a => some (U.code a)
  | .key .codehashKey a => some (goCodeHashBytes U a)
  | .key .suicideKey _ => none
  | .stateKey a slot => some (word32Bytes (U.storage a slot))

/-- The byte string a get request yields when it has to go upstream. -/
def fetchVal (U : Upstream) (a : Address) (act : RequestType) (slot : Word) : Bytes :=
  match act with
  | .getBalance => natToBytes (U.balance a)
  | .getNonce => goNonceBytes (U.nonce a)
  | .getCode => U.code a
  | .getCodehash => goCodeHashBytes U a
  | .getState => word32Bytes (U.storage a slot)

/-- Root-cache extension order: the second scratchpad agrees with the
first wherever the first is defined, and any new entry is the cached
upstream value of its key. The get pipeline only ever grows the root
scratchpad along this order. -/
def SPExt (U : Upstream) (sp sp2 : SP) : Prop :=
  ∀ k, sp2 k = sp k ∨ (sp k = none ∧ sp2 k = upstreamVal U k)

/-- Replace root scratchpad and root rpcCnt of a chain, keeping every
other field of every layer. -/
def OverlayState.setRoot (sp : SP) (n : Nat) : OverlayState → OverlayState
  | .root r => .root { r with scratchPad := sp, rpcCnt := n }
  | .layer p l => .layer (p.setRoot sp n) l

/-- All layers of a chain in root-to-leaf order, the root viewed as a
layer. -/
def OverlayState.layersRootFirst : OverlayState → List LayerData
  | .root r => [r.toLayer]
  | .layer p l => p.layersRootFirst ++ [l]

/-- The non-root layers of a chain in leaf-to-root order. -/
def OverlayState.nonRootLeafFirst : OverlayState → List LayerData
  | .root _ => []
  | .layer p l => l :: p.nonRootLeafFirst

/-! ## Byte encoding lemmas -/

theorem bytesToNat_append_one (bs : Bytes) (b : Nat) :
    bytesToNat (bs ++ [b]) = bytesToNat bs * 256 + b := by
  simp [bytesToNat, List.foldl_append]

theorem natToBytesAux_spec :
    ∀ fuel n, n ≤ fuel → bytesToNat (natToBytesAux fuel n) = n := by
  intro fuel
  induction fuel with
  | zero => intro n hn; interval_cases n; simp [natToBytesAux, bytesToNat]
  | succ fuel ih =>
    intro n hn
    by_cases h0 : n = 0
    · simp [natToBytesAux, h0, bytesToNat]
    · have hdiv : n / 256 ≤ fuel := by
        have : n / 256 < n := Nat.div_lt_self (Nat.pos_of_ne_zero h0) (by norm_num)
        omega
      simp only [natToBytesAux, h0, if_false]
      rw [bytesToNat_append_one, ih _ hdiv]
      rw [Nat.mul_comm]; exact Nat.div_add_mod n 256

/-- Round trip: decoding the minimal big-endian encoding gives the
original number (big.Int SetBytes after Bytes). -/
theorem bytesToNat_natToBytes (n : Nat) : bytesToNat (natToBytes n) = n :=
  natToBytesAux_spec n n (Nat.le_refl n)

theorem bytesToNat_replicate_zero_append (k : Nat) (bs : Bytes) :
    bytesToNat (List.replicate k 0 ++ bs) = bytesToNat bs := by
  induction k with
  | zero => simp
  | succ k ih =>
    simpa [bytesToNat, List.replicate_succ] using ih

theorem toHash32_of_length_32 (bs : Bytes) (h : bs.length = 32) :
    toHash32 bs = bs := by
  simp [toHash32, pad32, h]

/-! ## Scratchpad lemmas -/

theorem SP.insert_self (m : SP) (k : SPKey) (v : Bytes) :
    m.insert k v k = some v := by
  simp [SP.insert]

theorem SP.insert_ne (m : SP) (k k2 : SPKey) (v : Bytes) (h : k2 ≠ k) :
    m.insert k v k2 = m k2 := by
  simp [SP.insert, h]

theorem SPExt.refl (U : Upstream) (sp : SP) : SPExt U sp sp := fun _ => Or.inl rfl

theorem SPExt.trans {U : Upstream} {sp1 sp2 sp3 : SP}
    (h12 : SPExt U sp1 sp2) (h23 : SPExt U sp2 sp3) : SPExt U sp1 sp3 := by
  intro k
  rcases h23 k with h | ⟨hn, hv⟩
  · rcases h12 k with h2 | ⟨hn2, hv2⟩
    · exact Or.inl (h.trans h2)
    · exact Or.inr ⟨hn2, h.trans hv2⟩
  · rcases h12 k with h2 | ⟨hn2, hv2⟩
    · exact Or.inr ⟨h2 ▸ hn, hv⟩
    · exact Or.inr ⟨hn2, hv⟩

theorem SPExt.insert_upstream {U : Upstream} {sp : SP} {k : SPKey} {v : Bytes}
    (hk : sp k = none) (hv : upstreamVal U k = some v) :
    SPExt U sp (sp.insert k v) := by
  intro k2
  by_cases h : k2 = k
  · subst h; exact Or.inr ⟨hk, by rw [SP.insert_self, hv]⟩
  · exact Or.inl (SP.insert_ne _ _ _ _ h)

/-- A suicide entry is never created by cache extension: the two
scratchpads agree on every SUICIDE key. -/
theorem SPExt.suicide_eq {U : Upstream} {sp sp2 : SP} (h : SPExt U sp sp2)
    (a : Address) : sp2 (.key .suicideKey a) = sp (.key .suicideKey a) := by
  rcases h (.key .suicideKey a) with h2 | ⟨hn, hv⟩
  · exact h2
  · rw [hv, hn]; rfl

/-! ## condInsert and populateAccount lemmas -/

theorem condInsert_at (sp : SP) (k : SPKey) (v : Bytes) (h : sp k = none) :
    condInsert sp k v k = some v := by
  simp [condInsert, h, SP.insert_self]

theorem condInsert_other (sp : SP) (k k2 : SPKey) (v : Bytes) (h : k2 ≠ k) :
    condInsert sp k v k2 = sp k2 := by
  unfold condInsert
  split
  · rfl
  · exact SP.insert_ne _ _ _ _ h

theorem SPExt_condInsert {U : Upstream} (sp : SP) (k : SPKey) (v : Bytes)
    (hv : upstreamVal U k = some v) :
    SPExt U sp (condInsert sp k v) := by
  unfold condInsert
  split
  · exact SPExt.refl U sp
  · next h =>
    exact SPExt.insert_upstream (Option.not_isSome_iff_eq_none.mp h) hv

theorem populateAccount_ext (U : Upstream) (sp : SP) (a : Address) :
    SPExt U sp (populateAccount sp a (fetchAccount U a)) := by
  unfold populateAccount
  refine SPExt.trans
    (SPExt_condInsert sp (.key .balanceKey a) (natToBytes (fetchAccount U a).balance) rfl)
    (SPExt.trans
      (SPExt_condInsert _ (.key .nonceKey a) (natToBytes (int64Abs (fetchAccount U a).nonce)) rfl)
      (SPExt.trans
        (SPExt_condInsert _ (.key .codeKey a) (fetchAccount U a).code rfl)
        (SPExt_condInsert _ (.key .codehashKey a) (fetchAccount U a).codeHash rfl)))

theorem populateAccount_at (U : Upstream) (sp : SP) (a : Address)
    (act : RequestType) (slot : Word) (hact : act ≠ .getState)
    (h : sp (rtKey a act slot) = none) :
    populateAccount sp a (fetchAccount U a) (rtKey a act slot) =
      some (fetchVal U a act slot) := by
  cases act with
  | getState => exact absurd rfl hact
  | getBalance =>
    simp only [rtKey] at h ⊢
    unfold populateAccount
    rw [condInsert_other _ _ _ _ (by simp), condInsert_other _ _ _ _ (by simp),
        condInsert_other _ _ _ _ (by simp), condInsert_at _ _ _ h]
    rfl
  | getNonce =>
    simp only [rtKey] at h ⊢
    unfold populateAccount
    rw [condInsert_other _ _ _ _ (by simp), condInsert_other _ _ _ _ (by simp),
        condInsert_at _ _ _ (by rw [condInsert_other _ _ _ _ (by simp)]; exact h)]
    rfl
  | getCode =>
    simp only [rtKey] at h ⊢
    unfold populateAccount
    rw [condInsert_other _ _ _ _ (by simp),
        condInsert_at _ _ _ (by
          rw [condInsert_other _ _ _ _ (by simp), condInsert_other _ _ _ _ (by simp)]
          exact h)]
    rfl
  | getCodehash =>
    simp only [rtKey] at h ⊢
    unfold populateAccount
    rw [condInsert_at _ _ _ (by
      rw [condInsert_other _ _ _ _ (by simp), condInsert_other _ _ _ _ (by simp),
          condInsert_other _ _ _ _ (by simp)]
      exact h)]
    rfl

/-! ## setRoot and lookup lemmas -/

namespace OverlayState

theorem deriveCnt_setRoot (s : OverlayState) (sp : SP) (n : Nat) :
    (s.setRoot sp n).deriveCnt = s.deriveCnt := by
  induction s with
  | root r => rfl
  | layer p l ih => simp [setRoot, deriveCnt, ih]

theorem rootSP_setRoot (s : OverlayState) (sp : SP) (n : Nat) :
    (s.setRoot sp n).rootSP = sp := by
  induction s with
  | root r => rfl
  | layer p l ih => simpa [setRoot, rootSP] using ih

theorem rootRpc_setRoot (s : OverlayState) (sp : SP) (n : Nat) :
    (s.setRoot sp n).rootRpc = n := by
  induction s with
  | root r => rfl
  | layer p l ih => simpa [setRoot, rootRpc] using ih

theorem setRoot_setRoot (s : OverlayState) (sp n sp2 n2) :
    (s.setRoot sp n).setRoot sp2 n2 = s.setRoot sp2 n2 := by
  induction s with
  | root r => rfl
  | layer p l ih => simp [setRoot, ih]

theorem setRoot_self (s : OverlayState) : s.setRoot s.rootSP s.rootRpc = s := by
  induction s with
  | root r => rfl
  | layer p l ih => simpa [setRoot, rootSP, rootRpc] using ih

theorem curTx_setRoot (s : OverlayState) (sp : SP) (n : Nat) :
    (s.setRoot sp n).curTx = s.curTx := by
  cases s <;> rfl

/-- Chain lookup restricted to the non-root layers. -/
def lookupNonRoot : OverlayState → SPKey → Option Bytes
  | .root _, _ => none
  | .layer p l, k =>
    match l.scratchPad k with
    | some v => some v
    | none => p.lookupNonRoot k

theorem lookup_split (s : OverlayState) (k : SPKey) :
    s.lookup k = match s.lookupNonRoot k with
                 | some v => some v
                 | none => s.rootSP k := by
  induction s with
  | root r => rfl
  | layer p l ih =>
    simp only [lookup, lookupNonRoot, rootSP]
    cases l.scratchPad k <;> simp [ih]

theorem lookupNonRoot_setRoot (s : OverlayState) (sp n k) :
    (s.setRoot sp n).lookupNonRoot k = s.lookupNonRoot k := by
  induction s with
  | root r => rfl
  | layer p l ih =>
    simp only [setRoot, lookupNonRoot]
    cases l.scratchPad k <;> simp [ih]

end OverlayState

theorem upstreamVal_rtKey (U : Upstream) (a : Address) (act : RequestType) (slot : Word) :
    upstreamVal U (rtKey a act slot) = some (fetchVal U a act slot) := by
  cases act <;> rfl

/-! ## The shadow characterisation of get -/

/-- Shadow law for the get pipeline: the value returned by a read is the
first hit walking child to parent (root cache included), and when no
layer holds the key it is the fetched upstream value. -/
theorem get_fst_eq_lookup (U : Upstream) (s : OverlayState) (a : Address)
    (act : RequestType) (slot : Word) :
    (s.get U a act slot).1 =
      (s.lookup (rtKey a act slot)).getD (fetchVal U a act slot) := by
  induction s with
  | root r =>
    cases heq : r.scratchPad (rtKey a act slot) with
    | some v => simp [OverlayState.get, OverlayState.lookup, heq]
    | none =>
      cases act with
      | getState => simp [OverlayState.get, OverlayState.lookup, heq, fetchVal]
      | getBalance =>
        simp [OverlayState.get, OverlayState.lookup, heq,
          populateAccount_at U r.scratchPad a .getBalance slot (by simp) heq]
      | getNonce =>
        simp [OverlayState.get, OverlayState.lookup, heq,
          populateAccount_at U r.scratchPad a .getNonce slot (by simp) heq]
      | getCode =>
        simp [OverlayState.get, OverlayState.lookup, heq,
          populateAccount_at U r.scratchPad a .getCode slot (by simp) heq]
      | getCodehash =>
        simp [OverlayState.get, OverlayState.lookup, heq,
          populateAccount_at U r.scratchPad a .getCodehash slot (by simp) heq]
  | layer p l ih =>
    cases heq : l.scratchPad (rtKey a act slot) with
    | some v => simp [OverlayState.get, OverlayState.lookup, heq]
    | none => simp [OverlayState.get, OverlayState.lookup, heq, ih]

/-- The chain returned by get differs from the input only in the root
scratchpad and the root rpc counter, and the new root scratchpad is a
cache extension of the old one. -/
theorem get_snd_setRoot (U : Upstream) (s : OverlayState) (a : Address)
    (act : RequestType) (slot : Word) :
    ∃ sp2 n2, (s.get U a act slot).2 = s.setRoot sp2 n2 ∧ SPExt U s.rootSP sp2 := by
  induction s with
  | root r =>
    cases heq : r.scratchPad (rtKey a act slot) with
    | some v =>
      refine ⟨r.scratchPad, r.rpcCnt, ?_, SPExt.refl U _⟩
      simp [OverlayState.get, heq]
      exact (OverlayState.setRoot_self (.root r)).symm
    | none =>
      cases act with
      | getState =>
        refine ⟨r.scratchPad.insert (rtKey a .getState slot)
            (word32Bytes (U.storage a slot)), r.rpcCnt + 1, ?_, ?_⟩
        · simp [OverlayState.get, heq, OverlayState.setRoot]
        · exact SPExt.insert_upstream heq (upstreamVal_rtKey U a .getState slot)
      | getBalance =>
        exact ⟨populateAccount r.scratchPad a (fetchAccount U a), r.rpcCnt,
          by simp [OverlayState.get, heq, OverlayState.setRoot],
          populateAccount_ext U r.scratchPad a⟩
      | getNonce =>
        exact ⟨populateAccount r.scratchPad a (fetchAccount U a), r.rpcCnt,
          by simp [OverlayState.get, heq, OverlayState.setRoot],
          populateAccount_ext U r.scratchPad a⟩
      | getCode =>
        exact ⟨populateAccount r.scratchPad a (fetchAccount U a), r.rpcCnt,
          by simp [OverlayState.get, heq, OverlayState.setRoot],
          populateAccount_ext U r.scratchPad a⟩
      | getCodehash =>
        exact ⟨populateAccount r.scratchPad a (fetchAccount U a), r.rpcCnt,
          by simp [OverlayState.get, heq, OverlayState.setRoot],
          populateAccount_ext U r.scratchPad a⟩
  | layer p l ih =>
    cases heq : l.scratchPad (rtKey a act slot) with
    | some v =>
      refine ⟨p.rootSP, p.rootRpc, ?_, SPExt.refl U _⟩
      simp [OverlayState.get, heq, OverlayState.setRoot, OverlayState.setRoot_self p]
    | none =>
      obtain ⟨sp2, n2, hs, hext⟩ := ih
      exact ⟨sp2, n2, by simp [OverlayState.get, heq, OverlayState.setRoot, hs],
        by simpa [OverlayState.rootSP] using hext⟩

/-- Read invariance: extending the root cache along the upstream order
does not change the value any read returns. -/
theorem get_fst_setRoot (U : Upstream) (s : OverlayState) (sp2 : SP) (n2 : Nat)
    (h : SPExt U s.rootSP sp2) (a : Address) (act : RequestType) (slot : Word) :
    ((s.setRoot sp2 n2).get U a act slot).1 = (s.get U a act slot).1 := by
  rw [get_fst_eq_lookup, get_fst_eq_lookup,
    OverlayState.lookup_split, OverlayState.lookup_split,
    OverlayState.lookupNonRoot_setRoot, OverlayState.rootSP_setRoot]
  cases hnr : s.lookupNonRoot (rtKey a act slot) with
  | some v => simp
  | none =>
    simp only
    rcases h (rtKey a act slot) with heq | ⟨hn, hv⟩
    · rw [heq]
    · rw [hn, hv, upstreamVal_rtKey]
      rfl

/-! ## Observable state and its invariance under root-cache extension -/

namespace OverlayState

theorem getLogsLoop_setRoot (s : OverlayState) (sp : SP) (n : Nat) :
    ∀ tx acc, OverlayStateDB.getLogsLoop (s.setRoot sp n) tx acc =
      OverlayStateDB.getLogsLoop s tx acc := by
  induction s with
  | root r => intro tx acc; rfl
  | layer p l ih => intro tx acc; simp [setRoot, OverlayStateDB.getLogsLoop, ih]

theorem getReceiptWalk_setRoot (s : OverlayState) (sp : SP) (n : Nat) (tx : Word) :
    OverlayStateDB.getReceiptWalk (s.setRoot sp n) tx =
      OverlayStateDB.getReceiptWalk s tx := by
  induction s with
  | root r => rfl
  | layer p l ih =>
    simp only [setRoot, OverlayStateDB.getReceiptWalk]
    cases l.receipts tx <;> simp [ih]

end OverlayState

theorem GetLogs_setRoot (s : OverlayState) (sp : SP) (n : Nat) (tx : Word) :
    OverlayStateDB.GetLogs (s.setRoot sp n) tx = OverlayStateDB.GetLogs s tx :=
  s.getLogsLoop_setRoot sp n tx []

theorem GetReceipt_setRoot (s : OverlayState) (sp : SP) (n : Nat) (tx : Word) :
    OverlayStateDB.GetReceipt (s.setRoot sp n) tx = OverlayStateDB.GetReceipt s tx := by
  unfold OverlayStateDB.GetReceipt
  rw [OverlayState.getReceiptWalk_setRoot, GetLogs_setRoot]

theorem HasSuicided_setRoot {U : Upstream} (s : OverlayState) (sp2 : SP) (n2 : Nat)
    (h : SPExt U s.rootSP sp2) (a : Address) :
    OverlayStateDB.HasSuicided (s.setRoot sp2 n2) a = OverlayStateDB.HasSuicided s a := by
  cases s with
  | root r =>
    unfold OverlayStateDB.HasSuicided
    have : sp2 (.key .suicideKey a) = r.scratchPad (.key .suicideKey a) :=
      SPExt.suicide_eq h a
    simp [OverlayState.setRoot, OverlayState.topSP, this]
  | layer p l => rfl

/-- Equality of every observable of the State-DB facade: the primitive
getters, the suicide flag, logs, receipts and the overlay depth. -/
def obsEq (U : Upstream) (s s2 : OverlayState) : Prop :=
  (∀ a, (OverlayStateDB.GetBalance U s a).1 = (OverlayStateDB.GetBalance U s2 a).1) ∧
  (∀ a, (OverlayStateDB.GetNonce U s a).1 = (OverlayStateDB.GetNonce U s2 a).1) ∧
  (∀ a, (OverlayStateDB.GetCode U s a).1 = (OverlayStateDB.GetCode U s2 a).1) ∧
  (∀ a, (OverlayStateDB.GetCodeHash U s a).1 = (OverlayStateDB.GetCodeHash U s2 a).1) ∧
  (∀ a k, (OverlayStateDB.GetState U s a k).1 = (OverlayStateDB.GetState U s2 a k).1) ∧
  (∀ a, OverlayStateDB.HasSuicided s a = OverlayStateDB.HasSuicided s2 a) ∧
  (∀ tx, OverlayStateDB.GetLogs s tx = OverlayStateDB.GetLogs s2 tx) ∧
  (∀ tx, OverlayStateDB.GetReceipt s tx = OverlayStateDB.GetReceipt s2 tx) ∧
  OverlayStateDB.GetOverlayDepth s = OverlayStateDB.GetOverlayDepth s2

/-- Extending the root cache along the upstream order leaves every
observable unchanged. -/
theorem obsEq_setRoot (U : Upstream) (s : OverlayState) (sp2 : SP) (n2 : Nat)
    (h : SPExt U s.rootSP sp2) : obsEq U (s.setRoot sp2 n2) s := by
  refine ⟨?_, ?_, ?_, ?_, ?_, ?_, ?_, ?_, ?_⟩
  · intro a
    show bytesToNat ((s.setRoot sp2 n2).get U a .getBalance 0).1 =
      bytesToNat (s.get U a .getBalance 0).1
    rw [get_fst_setRoot U s sp2 n2 h]
  · intro a
    show toUint64 (bytesToNat ((s.setRoot sp2 n2).get U a .getNonce 0).1) =
      toUint64 (bytesToNat (s.get U a .getNonce 0).1)
    rw [get_fst_setRoot U s sp2 n2 h]
  · intro a
    show ((s.setRoot sp2 n2).get U a .getCode 0).1 = (s.get U a .getCode 0).1
    exact get_fst_setRoot U s sp2 n2 h a .getCode 0
  · intro a
    show toHash32 ((s.setRoot sp2 n2).get U a .getCodehash 0).1 =
      toHash32 (s.get U a .getCodehash 0).1
    rw [get_fst_setRoot U s sp2 n2 h]
  · intro a k
    show bytesToWord ((s.setRoot sp2 n2).get U a .getState k).1 =
      bytesToWord (s.get U a .getState k).1
    rw [get_fst_setRoot U s sp2 n2 h]
  · intro a
    exact HasSuicided_setRoot s sp2 n2 h a
  · intro tx
    exact GetLogs_setRoot s sp2 n2 tx
  · intro tx
    exact GetReceipt_setRoot s sp2 n2 tx
  · unfold OverlayStateDB.GetOverlayDepth
    exact OverlayState.deriveCnt_setRoot s sp2 n2

/-! ## Writes above a snapshot only grow the root cache -/

/-- One facade write applied above a parent chain keeps the shape: the
parent is unchanged except for a root-cache extension, and the write
lands in the top layer. -/
theorem applyWrite_layer_setRoot (U : Upstream) (c0 : OverlayState) (sp : SP) (n : Nat)
    (ld : LayerData) (w : WriteOp) (hext : SPExt U c0.rootSP sp) :
    ∃ sp2 n2 ld2,
      applyWrite U (.layer (c0.setRoot sp n) ld) w = .layer (c0.setRoot sp2 n2) ld2 ∧
      SPExt U c0.rootSP sp2 := by
  have hbal : ∀ a,
      ∃ sp2 n2, ((OverlayState.layer (c0.setRoot sp n) ld).get U a .getBalance 0).2 =
        .layer (c0.setRoot sp2 n2) ld ∧ SPExt U c0.rootSP sp2 := by
    intro a
    obtain ⟨spB, nB, hs, hB⟩ :=
      get_snd_setRoot U (.layer (c0.setRoot sp n) ld) a .getBalance 0
    refine ⟨spB, nB, ?_, ?_⟩
    · rw [hs]
      show OverlayState.layer ((c0.setRoot sp n).setRoot spB nB) ld = _
      rw [OverlayState.setRoot_setRoot]
    · have : SPExt U sp spB := by
        simpa [OverlayState.rootSP, OverlayState.rootSP_setRoot] using hB
      exact SPExt.trans hext this
  cases w with
  | setBalance a v =>
    exact ⟨sp, n, _, rfl, hext⟩
  | addBalance a d =>
    obtain ⟨sp2, n2, hs, h2⟩ := hbal a
    refine ⟨sp2, n2, { ld with scratchPad := SP.insert ld.scratchPad (SPKey.key DomainTag.balanceKey a) (natToBytes (bytesToNat ((OverlayState.get U (.layer (c0.setRoot sp n) ld) a RequestType.getBalance 0).1) + d)) }, ?_, h2⟩
    simp only [applyWrite, OverlayStateDB.AddBalance]
    rw [hs]
    rfl
  | subBalance a d =>
    obtain ⟨sp2, n2, hs, h2⟩ := hbal a
    refine ⟨sp2, n2, { ld with scratchPad := SP.insert ld.scratchPad (SPKey.key DomainTag.balanceKey a) (natToBytes ((bytesToNat ((OverlayState.get U (.layer (c0.setRoot sp n) ld) a RequestType.getBalance 0).1) - d : Int)).natAbs) }, ?_, h2⟩
    simp only [applyWrite, OverlayStateDB.SubBalance]
    rw [hs]
    rfl
  | setNonce a v => exact ⟨sp, n, _, rfl, hext⟩
  | setCode a c => exact ⟨sp, n, _, rfl, hext⟩
  | setCodeHash a h => exact ⟨sp, n, _, rfl, hext⟩
  | setState a k v => exact ⟨sp, n, _, rfl, hext⟩
  | suicide a => exact ⟨sp, n, _, rfl, hext⟩
  | addLog l => exact ⟨sp, n, _, rfl, hext⟩
  | addReceipt tx rc => exact ⟨sp, n, _, rfl, hext⟩
  | startLogCollection tx blk => exact ⟨sp, n, _, rfl, hext⟩

/-- A whole write sequence applied above a parent chain keeps the shape. -/
theorem applyWrites_layer_setRoot (U : Upstream) (c0 : OverlayState) (W : List WriteOp) :
    ∀ sp n ld, SPExt U c0.rootSP sp →
    ∃ sp2 n2 ld2,
      applyWrites U (.layer (c0.setRoot sp n) ld) W = .layer (c0.setRoot sp2 n2) ld2 ∧
      SPExt U c0.rootSP sp2 := by
  induction W with
  | nil => intro sp n ld hext; exact ⟨sp, n, ld, rfl, hext⟩
  | cons w W ih =>
    intro sp n ld hext
    obtain ⟨sp1, n1, ld1, hw, h1⟩ := applyWrite_layer_setRoot U c0 sp n ld w hext
    obtain ⟨sp2, n2, ld2, hW, h2⟩ := ih sp1 n1 ld1 h1
    refine ⟨sp2, n2, ld2, ?_, h2⟩
    show applyWrites U (applyWrite U (.layer (c0.setRoot sp n) ld) w) W = _
    rw [hw, hW]

theorem revertLoop_self (s : OverlayState) (id : Nat) (h : s.deriveCnt + 1 = id) :
    OverlayStateDB.revertLoop s id = some s := by
  cases s <;> simp [OverlayStateDB.revertLoop, h]

/-- Corollary of the shape preservation: writes above any parent chain
produce a top layer over the same parent with an extended root cache. -/
theorem applyWrites_layer (U : Upstream) (c0 : OverlayState) (W : List WriteOp)
    (ld : LayerData) :
    ∃ sp2 n2 ld2,
      applyWrites U (.layer c0 ld) W = .layer (c0.setRoot sp2 n2) ld2 ∧
      SPExt U c0.rootSP sp2 := by
  have h := applyWrites_layer_setRoot U c0 W c0.rootSP c0.rootRpc ld (SPExt.refl U _)
  rwa [OverlayState.setRoot_self] at h

/-! ## Concrete instances used by witnesses and counterexamples -/

/-- A trivial upstream: every account empty, every slot zero. -/
def U0 : Upstream :=
  { balance := fun _ => 0
    nonce := fun _ => 0
    code := fun _ => []
    storage := fun _ _ => 0
    keccak := fun _ => [] }

/-- An upstream with one interesting account: address 1 has balance 100,
nonce 3, one-byte code 0x60, and a keccak returning 32 bytes of 7. -/
def U1 : Upstream :=
  { balance := fun a => if a = 1 then 100 else 0
    nonce := fun a => if a = 1 then 3 else 0
    code := fun a => if a = 1 then [96] else []
    storage := fun a slot => if a = 1 then slot + 5 else 0
    keccak := fun _ => List.replicate 32 7 }

/-- A fresh root record (NewOverlayState with batch size 100). -/
def root0 : RootData :=
  { scratchPad := SP.empty
    txLogs := fun _ => []
    receipts := fun _ => none
    currentTxHash := 0
    currentBlockHash := 0
    rpcCnt := 0
    batchSize := 100 }

/-- A fresh facade state: the protecting layer derived above the root
(NewOverlayStateDB). -/
def ex0 : OverlayState := (OverlayState.root root0).Derive

/-! ## Claim C1 -/

/-- C1 counterexample: the claim includes the suicide flag among the
canonical keys obeying the shadow law, but a HasSuicided read issued at
the top layer ignores ancestor layers: after Suicide on the facade
layer and one Snapshot, the deepest layer holding the suicide key still
holds 0x01, yet the read at the top returns false. -/
theorem claim_C1_counterexample :
    OverlayStateDB.HasSuicided ((OverlayStateDB.Suicide ex0 0).2.Derive) 0 = false ∧
    OverlayState.lookup ((OverlayStateDB.Suicide ex0 0).2.Derive)
      (SPKey.key DomainTag.suicideKey 0) = some [1] := by
  constructor
  · rfl
  · rfl

/-- C1 (amended): the shadow law holds for the five canonical key kinds
served by the get pipeline (balance, nonce, code, codehash, storage
slot): a read issued at the top layer returns the value of the deepest
layer whose scratchpad contains the key (first hit walking child to
parent, the root cache included), and when no layer contains it, the
upstream value at the pinned block as cached in the root scratchpad.
The suicide flag is excluded: its only read, HasSuicided, consults the
current layer alone. -/
theorem claim_C1_shadow (U : Upstream) (s : OverlayState) (a : Address)
    (act : RequestType) (slot : Word) :
    (s.get U a act slot).1 =
      (s.lookup (rtKey a act slot)).getD (fetchVal U a act slot) :=
  get_fst_eq_lookup U s a act slot

/-! ## Claim C2 -/

/-- C2: revert purity: for every facade state and every sequence of
setter, log and receipt writes, Snapshot then the writes then
RevertToSnapshot of the returned id succeeds and leaves every
observable (all primitive getters, HasSuicided, GetLogs, GetReceipt,
GetOverlayDepth) exactly as before the Snapshot; moreover the revert
step itself performs no upstream fetch: the root scratchpad and the
root rpc counter of the reverted-to state are those of the pre-revert
state, untouched by the revert. -/
theorem claim_C2_revert_purity (U : Upstream) (c0 : OverlayState) (W : List WriteOp) :
    ∃ s1,
      OverlayStateDB.RevertToSnapshot
          (applyWrites U (OverlayStateDB.Snapshot c0).2 W)
          (OverlayStateDB.Snapshot c0).1 = some s1 ∧
      obsEq U s1 c0 ∧
      s1.rootSP = (applyWrites U (OverlayStateDB.Snapshot c0).2 W).rootSP ∧
      s1.rootRpc = (applyWrites U (OverlayStateDB.Snapshot c0).2 W).rootRpc := by
  obtain ⟨sp2, n2, ld2, happ, hext⟩ :=
    applyWrites_layer U c0 W
      { scratchPad := SP.empty
        txLogs := fun _ => []
        receipts := fun _ => none
        currentTxHash := c0.curTx
        currentBlockHash := c0.curBlk }
  have hsnap : (OverlayStateDB.Snapshot c0).2 =
      OverlayState.layer c0
        { scratchPad := SP.empty
          txLogs := fun _ => []
          receipts := fun _ => none
          currentTxHash := c0.curTx
          currentBlockHash := c0.curBlk } := rfl
  refine ⟨c0.setRoot sp2 n2, ?_, obsEq_setRoot U c0 sp2 n2 hext, ?_, ?_⟩
  · rw [hsnap, happ]
    show OverlayStateDB.revertLoop (c0.setRoot sp2 n2) (OverlayStateDB.Snapshot c0).1 = _
    exact revertLoop_self _ _ (by
      show (c0.setRoot sp2 n2).deriveCnt + 1 = c0.deriveCnt + 1
      rw [OverlayState.deriveCnt_setRoot])
  · rw [hsnap, happ]
    show (c0.setRoot sp2 n2).rootSP = (c0.setRoot sp2 n2).rootSP
    rfl
  · rw [hsnap, happ]
    show (c0.setRoot sp2 n2).rootRpc = (c0.setRoot sp2 n2).rootRpc
    rfl

/-! ## Claim C7 -/

/-- C7: suicide is layer-scoped: Suicide writes 0x01 into the current
layer and returns true, after which HasSuicided is true there; a
subsequent Snapshot child reports false (the flag is not inherited);
and reverting to the snapshot id taken before the suicide lands on the
original state, where HasSuicided is false. -/
theorem claim_C7_suicide_scope (s0 : OverlayState) (a : Address)
    (h : OverlayStateDB.HasSuicided s0 a = false) :
    (OverlayStateDB.Suicide (OverlayStateDB.Snapshot s0).2 a).1 = true ∧
    OverlayStateDB.HasSuicided
      (OverlayStateDB.Suicide (OverlayStateDB.Snapshot s0).2 a).2 a = true ∧
    OverlayStateDB.HasSuicided
      (OverlayStateDB.Snapshot
        (OverlayStateDB.Suicide (OverlayStateDB.Snapshot s0).2 a).2).2 a = false ∧
    OverlayStateDB.RevertToSnapshot
      (OverlayStateDB.Snapshot
        (OverlayStateDB.Suicide (OverlayStateDB.Snapshot s0).2 a).2).2
      (OverlayStateDB.Snapshot s0).1 = some s0 ∧
    OverlayStateDB.HasSuicided s0 a = false := by
  refine ⟨rfl, ?_, rfl, ?_, h⟩
  · show OverlayStateDB.HasSuicided
      ((OverlayState.layer s0 _).writeTop (.key .suicideKey a) [1]) a = true
    simp [OverlayStateDB.HasSuicided, OverlayState.writeTop, OverlayState.topSP,
      SP.insert_self]
  · show OverlayStateDB.revertLoop
      ((OverlayStateDB.Suicide (OverlayStateDB.Snapshot s0).2 a).2)
      (OverlayStateDB.Snapshot s0).1 = some s0
    show OverlayStateDB.revertLoop (OverlayState.layer s0 _) (OverlayStateDB.Snapshot s0).1
      = some s0
    unfold OverlayStateDB.revertLoop
    rw [if_neg (by show ¬(s0.deriveCnt + 1 + 1 = s0.deriveCnt + 1); omega)]
    exact revertLoop_self s0 _ rfl

/-- C7 witness: the scenario run on a fresh facade state and address 0,
with every hypothesis discharged on that concrete input. -/
theorem claim_C7_witness :
    (OverlayStateDB.HasSuicided ex0 0 = false) ∧
    ((OverlayStateDB.Suicide (OverlayStateDB.Snapshot ex0).2 0).1 = true ∧
     OverlayStateDB.HasSuicided
       (OverlayStateDB.Suicide (OverlayStateDB.Snapshot ex0).2 0).2 0 = true ∧
     OverlayStateDB.HasSuicided
       (OverlayStateDB.Snapshot
         (OverlayStateDB.Suicide (OverlayStateDB.Snapshot ex0).2 0).2).2 0 = false ∧
     OverlayStateDB.RevertToSnapshot
       (OverlayStateDB.Snapshot
         (OverlayStateDB.Suicide (OverlayStateDB.Snapshot ex0).2 0).2).2
       (OverlayStateDB.Snapshot ex0).1 = some ex0 ∧
     OverlayStateDB.HasSuicided ex0 0 = false) :=
  ⟨rfl, claim_C7_suicide_scope ex0 0 rfl⟩

/-! ## Claim C8 -/

theorem getLogsLoop_eq (s : OverlayState) (tx : Word) :
    ∀ acc, OverlayStateDB.getLogsLoop s tx acc =
      (s.layersRootFirst.map (fun l => l.txLogs tx)).flatten ++ acc := by
  induction s with
  | root r =>
    intro acc
    simp [OverlayStateDB.getLogsLoop, OverlayState.layersRootFirst, RootData.toLayer]
  | layer p l ih =>
    intro acc
    simp [OverlayStateDB.getLogsLoop, OverlayState.layersRootFirst, ih]

theorem getReceiptWalk_eq (s : OverlayState) (tx : Word) :
    OverlayStateDB.getReceiptWalk s tx =
      s.nonRootLeafFirst.findSome? (fun l => l.receipts tx) := by
  induction s with
  | root r => rfl
  | layer p l ih =>
    simp only [OverlayStateDB.getReceiptWalk, OverlayState.nonRootLeafFirst,
      List.findSome?_cons]
    cases l.receipts tx <;> simp [ih]

/-- C8: log and receipt chain walks: GetLogs returns the concatenation
of the logs recorded for the tx hash across the layer chain in
root-to-leaf order, the root layer included; GetReceipt walks from the
current layer toward the root, returns the first receipt found with its
Logs field set to GetLogs, and excludes the root layer (the walk yields
none when only the root would hold the receipt). -/
theorem claim_C8_logs_receipts (s : OverlayState) (tx : Word) :
    OverlayStateDB.GetLogs s tx =
      (s.layersRootFirst.map (fun l => l.txLogs tx)).flatten ∧
    OverlayStateDB.GetReceipt s tx =
      (s.nonRootLeafFirst.findSome? (fun l => l.receipts tx)).map
        (fun r => { r with logs := OverlayStateDB.GetLogs s tx }) := by
  constructor
  · simpa using getLogsLoop_eq s tx []
  · unfold OverlayStateDB.GetReceipt
    rw [getReceiptWalk_eq]

/-! ## Claim C4 -/

theorem lookup_layer_none (p : OverlayState) (l : LayerData) (k : SPKey) :
    (OverlayState.layer p l).lookup k = none ↔
      l.scratchPad k = none ∧ p.lookup k = none := by
  show (match l.scratchPad k with
        | some v => some v
        | none => p.lookup k) = none ↔ _
  cases l.scratchPad k <;> simp

/-- C4: account triple coherence: after any account-kind get (balance,
nonce, code or codehash) on an address with no entry for any of its
four account keys anywhere in the chain, all four root-scratchpad
entries are present: the fetched balance, the nonce through the int64
conversion, the raw code, and the derived code hash, which is the
all-zero hash for empty fetched code and keccak256 of the code
otherwise. -/
theorem claim_C4_triple_coherence (U : Upstream) (s : OverlayState) (a : Address)
    (act : RequestType) (slot : Word) (hact : act ≠ .getState)
    (hb : s.lookup (.key .balanceKey a) = none)
    (hn : s.lookup (.key .nonceKey a) = none)
    (hc : s.lookup (.key .codeKey a) = none)
    (hh : s.lookup (.key .codehashKey a) = none) :
    ((s.get U a act slot).2.rootSP (.key .balanceKey a) =
        some (natToBytes (U.balance a))) ∧
    ((s.get U a act slot).2.rootSP (.key .nonceKey a) =
        some (goNonceBytes (U.nonce a))) ∧
    ((s.get U a act slot).2.rootSP (.key .codeKey a) = some (U.code a)) ∧
    ((s.get U a act slot).2.rootSP (.key .codehashKey a) =
        some (goCodeHashBytes U a)) ∧
    (U.code a = [] → goCodeHashBytes U a = zeroHash32) ∧
    (U.code a ≠ [] → (U.keccak (U.code a)).length = 32 →
        goCodeHashBytes U a = U.keccak (U.code a)) := by
  have hlast1 : U.code a = [] → goCodeHashBytes U a = zeroHash32 := by
    intro h; simp [goCodeHashBytes, h]
  have hlast2 : U.code a ≠ [] → (U.keccak (U.code a)).length = 32 →
      goCodeHashBytes U a = U.keccak (U.code a) := by
    intro h hlen
    simp [goCodeHashBytes, h, toHash32_of_length_32 _ hlen]
  induction s with
  | root r =>
    have hreq : r.scratchPad (rtKey a act slot) = none := by
      cases act with
      | getState => exact absurd rfl hact
      | getBalance => exact hb
      | getNonce => exact hn
      | getCode => exact hc
      | getCodehash => exact hh
    have hpop : ∀ act2 : RequestType, act2 ≠ .getState →
        r.scratchPad (rtKey a act2 slot) = none →
        populateAccount r.scratchPad a (fetchAccount U a) (rtKey a act2 slot) =
          some (fetchVal U a act2 slot) :=
      fun act2 h2 h3 => populateAccount_at U r.scratchPad a act2 slot h2 h3
    have hsnd : (OverlayState.get U (.root r) a act slot).2 =
        .root { r with scratchPad := populateAccount r.scratchPad a (fetchAccount U a) } := by
      cases act with
      | getState => exact absurd rfl hact
      | getBalance => simp [OverlayState.get, hreq]
      | getNonce => simp [OverlayState.get, hreq]
      | getCode => simp [OverlayState.get, hreq]
      | getCodehash => simp [OverlayState.get, hreq]
    rw [hsnd]
    refine ⟨?_, ?_, ?_, ?_, hlast1, hlast2⟩
    · exact hpop .getBalance (by simp) hb
    · exact hpop .getNonce (by simp) hn
    · exact hpop .getCode (by simp) hc
    · exact hpop .getCodehash (by simp) hh
  | layer p l ih =>
    obtain ⟨hbl, hbp⟩ := (lookup_layer_none p l _).mp hb
    obtain ⟨hnl, hnp⟩ := (lookup_layer_none p l _).mp hn
    obtain ⟨hcl, hcp⟩ := (lookup_layer_none p l _).mp hc
    obtain ⟨hhl, hhp⟩ := (lookup_layer_none p l _).mp hh
    have hreq : l.scratchPad (rtKey a act slot) = none := by
      cases act with
      | getState => exact absurd rfl hact
      | getBalance => exact hbl
      | getNonce => exact hnl
      | getCode => exact hcl
      | getCodehash => exact hhl
    have hsnd : (OverlayState.get U (.layer p l) a act slot).2 =
        .layer (OverlayState.get U p a act slot).2 l := by
      simp [OverlayState.get, hreq]
    rw [hsnd]
    show ((OverlayState.get U p a act slot).2.rootSP _ = _) ∧ _
    exact ih hbp hnp hcp hhp

/-- C4 witness: a fresh facade over upstream U1 and address 1 (balance
100, nonce 3, code 0x60, keccak output of length 32), with every
hypothesis discharged on that concrete input. -/
theorem claim_C4_witness :
    ((RequestType.getBalance ≠ RequestType.getState) ∧
      OverlayState.lookup ex0 (.key .balanceKey 1) = none ∧
      OverlayState.lookup ex0 (.key .nonceKey 1) = none ∧
      OverlayState.lookup ex0 (.key .codeKey 1) = none ∧
      OverlayState.lookup ex0 (.key .codehashKey 1) = none) ∧
    (((ex0.get U1 1 .getBalance 0).2.rootSP (.key .balanceKey 1) =
        some (natToBytes (U1.balance 1))) ∧
     ((ex0.get U1 1 .getBalance 0).2.rootSP (.key .nonceKey 1) =
        some (goNonceBytes (U1.nonce 1))) ∧
     ((ex0.get U1 1 .getBalance 0).2.rootSP (.key .codeKey 1) = some (U1.code 1)) ∧
     ((ex0.get U1 1 .getBalance 0).2.rootSP (.key .codehashKey 1) =
        some (goCodeHashBytes U1 1)) ∧
     (U1.code 1 = [] → goCodeHashBytes U1 1 = zeroHash32) ∧
     (U1.code 1 ≠ [] → (U1.keccak (U1.code 1)).length = 32 →
        goCodeHashBytes U1 1 = U1.keccak (U1.code 1))) :=
  ⟨⟨by decide, by decide, by decide, by decide, by decide⟩,
    claim_C4_triple_coherence U1 ex0 1 .getBalance 0 (by decide)
      (by decide) (by decide) (by decide) (by decide)⟩

/-! ## Claim C10 -/

theorem get_writeTop_hit (U : Upstream) (s : OverlayState) (a : Address)
    (act : RequestType) (slot : Word) (v : Bytes) :
    ((s.writeTop (rtKey a act slot) v).get U a act slot).1 = v := by
  cases s with
  | root r => simp [OverlayState.writeTop, OverlayState.get, SP.insert_self]
  | layer p l => simp [OverlayState.writeTop, OverlayState.get, SP.insert_self]

/-- C10: nonce round trip below 2 to the 63: SetNonce stores the nonce
through the signed 64-bit conversion big.NewInt(int64(v)).Bytes(), so
for every v below 2 to the 63 the value survives unchanged and GetNonce
in the same layer returns v. -/
theorem claim_C10_nonce_roundtrip (U : Upstream) (s : OverlayState) (a : Address)
    (v : Nat) (hv : v < 2 ^ 63) :
    (OverlayStateDB.GetNonce U (OverlayStateDB.SetNonce s a v) a).1 = v := by
  have hv64 : v < 2 ^ 64 := lt_of_lt_of_le hv (by norm_num)
  show toUint64 (bytesToNat (((s.writeTop (rtKey a .getNonce 0) (goNonceBytes v)).get
      U a .getNonce 0).1)) = v
  rw [get_writeTop_hit]
  unfold goNonceBytes toUint64 int64Abs
  rw [Nat.mod_eq_of_lt hv64, if_pos hv, bytesToNat_natToBytes, Nat.mod_eq_of_lt hv64]

/-- C10 witness: nonce 5 on a fresh facade state round-trips. -/
theorem claim_C10_witness :
    (5 < 2 ^ 63) ∧
    (OverlayStateDB.GetNonce U0 (OverlayStateDB.SetNonce ex0 0 5) 0).1 = 5 :=
  ⟨by norm_num, claim_C10_nonce_roundtrip U0 ex0 0 5 (by norm_num)⟩

/-! ## Claim C9 -/

/-- C9 counterexample: on a fresh facade over the empty upstream
(balance 0 everywhere), SubBalance of 1 at address 0 stores the big.Int
Bytes of the negative result, which is the byte string of its absolute
value; the subsequent GetBalance returns 1, not the upstream balance
minus 1 (which is minus 1). -/
theorem claim_C9_counterexample :
    (OverlayStateDB.GetBalance U0 (OverlayStateDB.SubBalance U0 ex0 0 1) 0).1 = 1 ∧
    ((OverlayStateDB.GetBalance U0 (OverlayStateDB.SubBalance U0 ex0 0 1) 0).1 : Int) ≠
      (U0.balance 0 : Int) - 1 := by
  constructor
  · rfl
  · decide

/-- C9 (amended): SubBalance never fails (the read pipeline resolves
the balance first and the write is total), and when the delta does not
exceed the upstream balance, a subsequent GetBalance in the same layer
returns the upstream balance minus the delta; when the delta exceeds
it, the stored value is the absolute value of the difference. -/
theorem claim_C9_subBalance (U : Upstream) (s : OverlayState) (a : Address) (d : Nat)
    (hb : s.lookup (.key .balanceKey a) = none) (hd : d ≤ U.balance a) :
    (OverlayStateDB.GetBalance U (OverlayStateDB.SubBalance U s a d) a).1 =
      U.balance a - d := by
  have h1 : (s.get U a .getBalance 0).1 = natToBytes (U.balance a) := by
    rw [get_fst_eq_lookup]
    show (s.lookup (.key .balanceKey a)).getD _ = _
    rw [hb]
    rfl
  show bytesToNat ((((s.get U a .getBalance 0).2.writeTop (rtKey a .getBalance 0)
      (natToBytes ((bytesToNat (s.get U a .getBalance 0).1 - d : Int)).natAbs)).get
      U a .getBalance 0).1) = U.balance a - d
  rw [get_writeTop_hit, h1, bytesToNat_natToBytes, bytesToNat_natToBytes]
  omega

/-- C9 witness: address 1 over upstream U1 (balance 100), delta 40,
with both hypotheses discharged on that concrete input. -/
theorem claim_C9_witness :
    (OverlayState.lookup ex0 (.key .balanceKey 1) = none ∧ 40 ≤ U1.balance 1) ∧
    (OverlayStateDB.GetBalance U1 (OverlayStateDB.SubBalance U1 ex0 1 40) 1).1 =
      U1.balance 1 - 40 :=
  ⟨⟨by decide, by decide⟩, claim_C9_subBalance U1 ex0 1 40 (by decide) (by decide)⟩

/-! ## Claim C5: the windowing batcher and the request counter -/

/-- The windowing loop shared by loadStateBatchRPC and
loadAccountBatchRPC: for begin := 0; begin < total; begin += step,
one BatchCallContext per iteration. Returns the number of transport
batch calls; fuel bounds the iteration count (total suffices whenever
step is positive). -/
def batchLoop : Nat → Nat → Nat → Nat → Nat
  | 0, _, _, _ => 0
  | fuel + 1, b, total, step =>
    if b < total then 1 + batchLoop fuel (b + step) total step else 0

theorem batchLoop_eq :
    ∀ fuel b total step, 0 < step → total - b ≤ fuel →
      batchLoop fuel b total step = (total - b + step - 1) / step := by
  intro fuel
  induction fuel with
  | zero =>
    intro b total step hstep hle
    have hb : ¬ b < total := by omega
    have h0 : total - b = 0 := by omega
    rw [h0, Nat.div_eq_of_lt (by omega : 0 + step - 1 < step)]
    rfl
  | succ fuel ih =>
    intro b total step hstep hle
    by_cases hb : b < total
    · have hrec : total - (b + step) ≤ fuel := by omega
      rw [batchLoop, if_pos hb, ih (b + step) total step hstep hrec]
      have hm : 1 ≤ total - b := by omega
      have h1 : total - b + step - 1 = (total - b - 1) + step := by omega
      rw [h1, Nat.add_div_right _ hstep]
      have h2 : total - (b + step) + step - 1 = if step < total - b
          then (total - b - 1) else step - 1 := by
        split <;> omega
      rw [h2]
      split
      · omega
      · rw [Nat.div_eq_of_lt (by omega : step - 1 < step),
          Nat.div_eq_of_lt (by omega : total - b - 1 < step)]
    · have h0 : total - b = 0 := by omega
      rw [batchLoop, if_neg hb, h0, Nat.div_eq_of_lt (by omega : 0 + step - 1 < step)]

/-- The outcome of one storage tick of the coalescer. -/
structure StorageTick where
  values : List Word
  transportBatches : Nat
  rpcDelta : Nat
deriving Repr

/-- loadStateBatchRPC under transport success: rpcCnt is bumped once at
entry, the requests are windowed by the batch size (one transport batch
per window), and every request is filled with the upstream value. -/
def loadStateBatchRPCModel (U : Upstream) (reqs : List (Address × Word)) (B : Nat) :
    StorageTick :=
  { values := reqs.map (fun r => U.storage r.1 r.2)
    transportBatches := batchLoop reqs.length 0 reqs.length B
    rpcDelta := 1 }

/-- One storage tick of the timeSlot loop: drain the pending queue; when
it is non-empty invoke loadStateBatchRPC once on the whole drained
batch. -/
def storageTick (U : Upstream) (reqs : List (Address × Word)) (B : Nat) : StorageTick :=
  if reqs.length = 0 then { values := [], transportBatches := 0, rpcDelta := 0 }
  else loadStateBatchRPCModel U reqs B

/-- 250 distinct slot requests. -/
def reqs250 : List (Address × Word) := (List.range 250).map (fun i => (i, i))

set_option maxRecDepth 10000 in
/-- C5 counterexample: a burst of 250 distinct slot reads drained in one
tick with batch size 100 issues exactly 3 transport batches, but the
rpc counter grows by 1, not by 3: rpcCnt is incremented once per
loadStateBatchRPC invocation, not once per transport batch. -/
theorem claim_C5_counterexample :
    (storageTick U0 reqs250 100).transportBatches = 3 ∧
    (storageTick U0 reqs250 100).rpcDelta = 1 ∧ (1 : Nat) ≠ 3 := by
  refine ⟨by decide, by decide, by decide⟩

/-- C5 (amended): for a burst of N concurrent slot reads drained within
one slot tick with positive batch size B, exactly the ceiling of N / B
upstream transport batches are issued, every read returns the upstream
value, and the root rpc counter grows by exactly 1 (one increment per
coalesced loadStateBatchRPC call, regardless of the number of transport
batches). -/
theorem claim_C5_batching (U : Upstream) (reqs : List (Address × Word)) (B : Nat)
    (hB : 0 < B) (hne : reqs ≠ []) :
    (storageTick U reqs B).transportBatches = (reqs.length + B - 1) / B ∧
    (storageTick U reqs B).values = reqs.map (fun r => U.storage r.1 r.2) ∧
    (storageTick U reqs B).rpcDelta = 1 := by
  have hlen : ¬ reqs.length = 0 := by
    simpa [List.length_eq_zero] using hne
  unfold storageTick
  rw [if_neg hlen]
  refine ⟨?_, rfl, rfl⟩
  show batchLoop reqs.length 0 reqs.length B = _
  simpa using batchLoop_eq reqs.length 0 reqs.length B hB (by omega)

set_option maxRecDepth 10000 in
/-- C5 witness: the 250-request burst with batch size 100 issues the
ceiling of 250 / 100 = 3 transport batches, with both hypotheses
discharged on that concrete input. -/
theorem claim_C5_witness :
    ((0 < 100) ∧ reqs250 ≠ []) ∧
    ((storageTick U0 reqs250 100).transportBatches = (reqs250.length + 100 - 1) / 100 ∧
     (storageTick U0 reqs250 100).values = reqs250.map (fun r => U0.storage r.1 r.2) ∧
     (storageTick U0 reqs250 100).rpcDelta = 1) :=
  ⟨⟨by norm_num, by decide⟩, claim_C5_batching U0 reqs250 100 (by norm_num) (by decide)⟩

/-! ## Claim C6: the retry policies of the two fetchers -/

/-- The inner retry loop of loadAccountBatchRPC for one window: the
transport oracle says whether the n-th BatchCallContext call succeeds;
on error the cumulative error counter rpcTries is incremented and the
call retried (after a 100 ms sleep, not modelled) unless the counter
exceeds 5. Returns the continuation (next call index used as the total
attempt count, and the error counter, never reset on success) or none
on give-up, together with the call index after the window. Fuel 6 minus
the current counter bounds the loop. -/
def accTryWindow (tr : Nat → Bool) : Nat → Nat → Nat → Option (Nat × Nat) × Nat
  | 0, idx, _ => (none, idx)
  | fuel + 1, idx, tries =>
    if tr idx then (some (idx + 1, tries), idx + 1)
    else if tries + 1 > 5 then (none, idx + 1)
    else accTryWindow tr fuel (idx + 1) (tries + 1)

/-- loadAccountBatchRPC over a number of windows: the error counter is
declared once per call and carried across windows. Returns success and
the total number of transport attempts. -/
def loadAccountWindows (tr : Nat → Bool) : Nat → Nat → Nat → Bool × Nat
  | 0, idx, _ => (true, idx)
  | w + 1, idx, tries =>
    match accTryWindow tr (6 - tries) idx tries with
    | (some (idx2, tries2), _) => loadAccountWindows tr w idx2 tries2
    | (none, idxF) => (false, idxF)

/-- The window loop of loadStateBatchRPC: one BatchCallContext per
window and no retry at all: the first transport error fails the whole
call immediately. Returns success and the number of attempts made. -/
def loadStateWindows (tr : Nat → Bool) : Nat → Nat → Bool × Nat
  | 0, idx => (true, idx)
  | w + 1, idx => if tr idx then loadStateWindows tr w (idx + 1) else (false, idx + 1)

/-- C6 counterexample: with a transport that always fails, the account
fetcher makes 6 attempts before the call fails, not at most 5; and with
a transport that fails only on the very first call, the slot fetcher
loadStateBatchRPC fails after a single attempt instead of sleeping and
retrying as the claim states. -/
theorem claim_C6_counterexample :
    loadAccountWindows (fun _ => false) 1 0 0 = (false, 6) ∧
    ¬((6 : Nat) ≤ 5) ∧
    loadStateWindows (fun n => decide (0 < n)) 2 0 = (false, 1) := by
  refine ⟨by decide, by decide, by decide⟩

/-- C6 (amended): on persistent transport errors the account fetcher
loadAccountBatchRPC makes exactly 6 attempts (the initial call plus 5
retries, sleeping 100 ms between attempts, not modelled) and then fails
the whole call; a transport recovering after 5 errors still succeeds.
The slot fetcher loadStateBatchRPC does not retry at this level: it
fails on the first transport error after a single attempt (the
coalescer loop retries the whole batch indefinitely with a 1 s sleep
instead). -/
theorem claim_C6_retry (w : Nat) :
    loadAccountWindows (fun _ => false) (w + 1) 0 0 = (false, 6) ∧
    loadAccountWindows (fun n => decide (5 ≤ n)) 1 0 0 = (true, 6) ∧
    loadStateWindows (fun _ => false) (w + 1) 0 = (false, 1) := by
  refine ⟨rfl, by decide, rfl⟩

/-! ## Claim C3: merging a snapshot equals writing in place -/

/-- The chain with the scratchpad of a pending child layer folded into
its top layer (the state MergeTo produces after one step). -/
def mergedOf (c : OverlayState) (ld : LayerData) : OverlayState :=
  OverlayStateDB.mapTopSP (OverlayStateDB.SP.mergeOver ld.scratchPad) c

theorem mergeOver_empty (lo : SP) : OverlayStateDB.SP.mergeOver SP.empty lo = lo := by
  funext k
  rfl

theorem mapTopSP_ext (f g : SP → SP) (c : OverlayState) (h : ∀ sp, f sp = g sp) :
    OverlayStateDB.mapTopSP f c = OverlayStateDB.mapTopSP g c := by
  cases c <;> simp [OverlayStateDB.mapTopSP, h]

theorem mapTopSP_id (c : OverlayState) :
    OverlayStateDB.mapTopSP (fun sp => sp) c = c := by
  cases c <;> rfl

theorem deriveCnt_mapTopSP (f : SP → SP) (c : OverlayState) :
    (OverlayStateDB.mapTopSP f c).deriveCnt = c.deriveCnt := by
  cases c <;> rfl

/-- Fresh layers merge to nothing. -/
theorem mergedOf_fresh (c : OverlayState) (ld : LayerData)
    (h : ld.scratchPad = SP.empty) : mergedOf c ld = c := by
  unfold mergedOf
  rw [h, mapTopSP_ext _ (fun sp => sp) c (fun sp => mergeOver_empty sp), mapTopSP_id]

theorem insert_mergeOver_hi (hi lo : SP) (k : SPKey) (v : Bytes) :
    SP.insert (OverlayStateDB.SP.mergeOver hi lo) k v =
      OverlayStateDB.SP.mergeOver (SP.insert hi k v) lo := by
  funext k2
  by_cases h : k2 = k
  · subst h
    simp [SP.insert, OverlayStateDB.SP.mergeOver]
  · simp [SP.insert, OverlayStateDB.SP.mergeOver, h]

theorem insert_mergeOver_lo (hi lo : SP) (k : SPKey) (v : Bytes) (hk : hi k = none) :
    SP.insert (OverlayStateDB.SP.mergeOver hi lo) k v =
      OverlayStateDB.SP.mergeOver hi (SP.insert lo k v) := by
  funext k2
  by_cases h : k2 = k
  · subst h
    simp [SP.insert, OverlayStateDB.SP.mergeOver, hk]
  · simp [SP.insert, OverlayStateDB.SP.mergeOver, h]

theorem condInsert_mergeOver (hi lo : SP) (k : SPKey) (v : Bytes) :
    condInsert (OverlayStateDB.SP.mergeOver hi lo) k v =
      OverlayStateDB.SP.mergeOver hi (condInsert lo k v) := by
  have hmk : OverlayStateDB.SP.mergeOver hi lo k =
      match hi k with
      | some w => some w
      | none => lo k := rfl
  cases hhi : hi k with
  | some w =>
    have h1 : condInsert (OverlayStateDB.SP.mergeOver hi lo) k v =
        OverlayStateDB.SP.mergeOver hi lo := by
      unfold condInsert
      rw [hmk, hhi]
      simp
    rw [h1]
    unfold condInsert
    split
    · rfl
    · funext k2
      by_cases h : k2 = k
      · subst h
        simp [OverlayStateDB.SP.mergeOver, SP.insert, hhi]
      · simp [OverlayStateDB.SP.mergeOver, SP.insert, h]
  | none =>
    cases hlo : lo k with
    | some u =>
      have h1 : condInsert (OverlayStateDB.SP.mergeOver hi lo) k v =
          OverlayStateDB.SP.mergeOver hi lo := by
        unfold condInsert
        rw [hmk, hhi, hlo]
        simp
      have h2 : condInsert lo k v = lo := by
        unfold condInsert
        rw [hlo]
        simp
      rw [h1, h2]
    | none =>
      have h1 : condInsert (OverlayStateDB.SP.mergeOver hi lo) k v =
          SP.insert (OverlayStateDB.SP.mergeOver hi lo) k v := by
        unfold condInsert
        rw [hmk, hhi, hlo]
        simp
      have h2 : condInsert lo k v = SP.insert lo k v := by
        unfold condInsert
        rw [hlo]
        simp
      rw [h1, h2, insert_mergeOver_lo hi lo k v hhi]

theorem populateAccount_mergeOver (hi lo : SP) (a : Address)
    (fr : FetchedAccountResult) :
    populateAccount (OverlayStateDB.SP.mergeOver hi lo) a fr =
      OverlayStateDB.SP.mergeOver hi (populateAccount lo a fr) := by
  unfold populateAccount
  rw [condInsert_mergeOver, condInsert_mergeOver, condInsert_mergeOver,
    condInsert_mergeOver]

theorem writeTop_mapTopSP (f : SP → SP) (c : OverlayState) (k : SPKey) (v : Bytes) :
    (OverlayStateDB.mapTopSP f c).writeTop k v =
      OverlayStateDB.mapTopSP (fun sp => SP.insert (f sp) k v) c := by
  cases c <;> rfl

theorem writeTop_merged (c : OverlayState) (ld : LayerData) (k : SPKey) (v : Bytes) :
    (mergedOf c ld).writeTop k v =
      mergedOf c { ld with scratchPad := ld.scratchPad.insert k v } := by
  unfold mergedOf
  rw [writeTop_mapTopSP]
  exact mapTopSP_ext _ _ c (fun sp => insert_mergeOver_hi ld.scratchPad sp k v)

/-- A get issued above a pending child layer and the same get issued on
the chain with the child already folded in return the same value, and
their root-cache effects commute with the folding. -/
theorem get_merged (U : Upstream) (cA : OverlayState) (ldA : LayerData)
    (a : Address) (act : RequestType) (slot : Word) :
    ∃ v cA2,
      OverlayState.get U (.layer cA ldA) a act slot = (v, .layer cA2 ldA) ∧
      OverlayState.get U (mergedOf cA ldA) a act slot = (v, mergedOf cA2 ldA) := by
  cases hld : ldA.scratchPad (rtKey a act slot) with
  | some v =>
    refine ⟨v, cA, by simp [OverlayState.get, hld], ?_⟩
    cases cA with
    | root r =>
      have hm : OverlayStateDB.SP.mergeOver ldA.scratchPad r.scratchPad
          (rtKey a act slot) = some v := by
        simp [OverlayStateDB.SP.mergeOver, hld]
      simp [mergedOf, OverlayStateDB.mapTopSP, OverlayState.get, hm]
    | layer p l =>
      have hm : OverlayStateDB.SP.mergeOver ldA.scratchPad l.scratchPad
          (rtKey a act slot) = some v := by
        simp [OverlayStateDB.SP.mergeOver, hld]
      simp [mergedOf, OverlayStateDB.mapTopSP, OverlayState.get, hm]
  | none =>
    cases cA with
    | root r =>
      have hm : OverlayStateDB.SP.mergeOver ldA.scratchPad r.scratchPad
          (rtKey a act slot) = r.scratchPad (rtKey a act slot) := by
        simp [OverlayStateDB.SP.mergeOver, hld]
      cases hr : r.scratchPad (rtKey a act slot) with
      | some w =>
        refine ⟨w, .root r, by simp [OverlayState.get, hld, hr], ?_⟩
        simp [mergedOf, OverlayStateDB.mapTopSP, OverlayState.get, hm, hr]
      | none =>
        cases act with
        | getState =>
          refine ⟨word32Bytes (U.storage a slot),
            .root { r with
              scratchPad := r.scratchPad.insert (rtKey a .getState slot)
                (word32Bytes (U.storage a slot))
              rpcCnt := r.rpcCnt + 1 },
            by simp [OverlayState.get, hld, hr], ?_⟩
          simp only [mergedOf, OverlayStateDB.mapTopSP, OverlayState.get, hm, hr]
          rw [insert_mergeOver_lo ldA.scratchPad r.scratchPad _ _ hld]
        | getBalance =>
          refine ⟨(populateAccount r.scratchPad a (fetchAccount U a)
              (rtKey a .getBalance slot)).getD [],
            .root { r with
              scratchPad := populateAccount r.scratchPad a (fetchAccount U a) },
            by simp [OverlayState.get, hld, hr], ?_⟩
          have hv : OverlayStateDB.SP.mergeOver ldA.scratchPad
              (populateAccount r.scratchPad a (fetchAccount U a))
              (rtKey a .getBalance slot) =
              populateAccount r.scratchPad a (fetchAccount U a)
                (rtKey a .getBalance slot) := by
            simp [OverlayStateDB.SP.mergeOver, hld]
          simp only [mergedOf, OverlayStateDB.mapTopSP, OverlayState.get, hm, hr]
          rw [populateAccount_mergeOver, hv]
        | getNonce =>
          refine ⟨(populateAccount r.scratchPad a (fetchAccount U a)
              (rtKey a .getNonce slot)).getD [],
            .root { r with
              scratchPad := populateAccount r.scratchPad a (fetchAccount U a) },
            by simp [OverlayState.get, hld, hr], ?_⟩
          have hv : OverlayStateDB.SP.mergeOver ldA.scratchPad
              (populateAccount r.scratchPad a (fetchAccount U a))
              (rtKey a .getNonce slot) =
              populateAccount r.scratchPad a (fetchAccount U a)
                (rtKey a .getNonce slot) := by
            simp [OverlayStateDB.SP.mergeOver, hld]
          simp only [mergedOf, OverlayStateDB.mapTopSP, OverlayState.get, hm, hr]
          rw [populateAccount_mergeOver, hv]
        | getCode =>
          refine ⟨(populateAccount r.scratchPad a (fetchAccount U a)
              (rtKey a .getCode slot)).getD [],
            .root { r with
              scratchPad := populateAccount r.scratchPad a (fetchAccount U a) },
            by simp [OverlayState.get, hld, hr], ?_⟩
          have hv : OverlayStateDB.SP.mergeOver ldA.scratchPad
              (populateAccount r.scratchPad a (fetchAccount U a))
              (rtKey a .getCode slot) =
              populateAccount r.scratchPad a (fetchAccount U a)
                (rtKey a .getCode slot) := by
            simp [OverlayStateDB.SP.mergeOver, hld]
          simp only [mergedOf, OverlayStateDB.mapTopSP, OverlayState.get, hm, hr]
          rw [populateAccount_mergeOver, hv]
        | getCodehash =>
          refine ⟨(populateAccount r.scratchPad a (fetchAccount U a)
              (rtKey a .getCodehash slot)).getD [],
            .root { r with
              scratchPad := populateAccount r.scratchPad a (fetchAccount U a) },
            by simp [OverlayState.get, hld, hr], ?_⟩
          have hv : OverlayStateDB.SP.mergeOver ldA.scratchPad
              (populateAccount r.scratchPad a (fetchAccount U a))
              (rtKey a .getCodehash slot) =
              populateAccount r.scratchPad a (fetchAccount U a)
                (rtKey a .getCodehash slot) := by
            simp [OverlayStateDB.SP.mergeOver, hld]
          simp only [mergedOf, OverlayStateDB.mapTopSP, OverlayState.get, hm, hr]
          rw [populateAccount_mergeOver, hv]
    | layer p l =>
      have hm : OverlayStateDB.SP.mergeOver ldA.scratchPad l.scratchPad
          (rtKey a act slot) = l.scratchPad (rtKey a act slot) := by
        simp [OverlayStateDB.SP.mergeOver, hld]
      cases hl : l.scratchPad (rtKey a act slot) with
      | some w =>
        refine ⟨w, .layer p l, by simp [OverlayState.get, hld, hl], ?_⟩
        simp [mergedOf, OverlayStateDB.mapTopSP, OverlayState.get, hm, hl]
      | none =>
        refine ⟨(OverlayState.get U p a act slot).1,
          .layer (OverlayState.get U p a act slot).2 l,
          by simp [OverlayState.get, hld, hl], ?_⟩
        simp [mergedOf, OverlayStateDB.mapTopSP, OverlayState.get, hm, hl]

/-- One scratchpad-only facade write commutes with folding a pending
child layer into its parent. -/
theorem applyWrite_merged (U : Upstream) (cA : OverlayState) (ldA : LayerData)
    (w : WriteOp) (hw : w.isStateWrite = true) :
    ∃ cA2 ldA2,
      applyWrite U (.layer cA ldA) w = .layer cA2 ldA2 ∧
      applyWrite U (mergedOf cA ldA) w = mergedOf cA2 ldA2 := by
  cases w with
  | setBalance a v =>
    exact ⟨cA, { ldA with scratchPad := ldA.scratchPad.insert (.key .balanceKey a) (natToBytes v) },
      rfl, writeTop_merged cA ldA _ _⟩
  | setNonce a v =>
    exact ⟨cA, { ldA with scratchPad := ldA.scratchPad.insert (.key .nonceKey a) (goNonceBytes v) },
      rfl, writeTop_merged cA ldA _ _⟩
  | setCode a c =>
    exact ⟨cA, { ldA with scratchPad := ldA.scratchPad.insert (.key .codeKey a) c },
      rfl, writeTop_merged cA ldA _ _⟩
  | setCodeHash a h =>
    exact ⟨cA, { ldA with scratchPad := ldA.scratchPad.insert (.key .codehashKey a) (word32Bytes h) },
      rfl, writeTop_merged cA ldA _ _⟩
  | setState a k v =>
    exact ⟨cA, { ldA with scratchPad := ldA.scratchPad.insert (.stateKey a k) (word32Bytes v) },
      rfl, writeTop_merged cA ldA _ _⟩
  | suicide a =>
    exact ⟨cA, { ldA with scratchPad := ldA.scratchPad.insert (.key .suicideKey a) [1] },
      rfl, writeTop_merged cA ldA _ _⟩
  | addBalance a d =>
    obtain ⟨v, cA2, hA, hB⟩ := get_merged U cA ldA a .getBalance 0
    refine ⟨cA2, { ldA with scratchPad := ldA.scratchPad.insert (.key .balanceKey a) (natToBytes (bytesToNat v + d)) }, ?_, ?_⟩
    · show OverlayStateDB.AddBalance U (.layer cA ldA) a d = _
      simp only [OverlayStateDB.AddBalance]
      rw [hA]
      rfl
    · show OverlayStateDB.AddBalance U (mergedOf cA ldA) a d = _
      simp only [OverlayStateDB.AddBalance]
      rw [hB]
      exact writeTop_merged cA2 ldA _ _
  | subBalance a d =>
    obtain ⟨v, cA2, hA, hB⟩ := get_merged U cA ldA a .getBalance 0
    refine ⟨cA2, { ldA with scratchPad := ldA.scratchPad.insert (.key .balanceKey a) (natToBytes ((bytesToNat v - d : Int)).natAbs) }, ?_, ?_⟩
    · show OverlayStateDB.SubBalance U (.layer cA ldA) a d = _
      simp only [OverlayStateDB.SubBalance]
      rw [hA]
      rfl
    · show OverlayStateDB.SubBalance U (mergedOf cA ldA) a d = _
      simp only [OverlayStateDB.SubBalance]
      rw [hB]
      exact writeTop_merged cA2 ldA _ _
  | addLog l => simp [WriteOp.isStateWrite] at hw
  | addReceipt tx rc => simp [WriteOp.isStateWrite] at hw
  | startLogCollection tx blk => simp [WriteOp.isStateWrite] at hw

/-- A whole scratchpad-only write sequence commutes with the folding. -/
theorem applyWrites_merged (U : Upstream) (W : List WriteOp)
    (hW : ∀ w ∈ W, w.isStateWrite = true) :
    ∀ cA ldA, ∃ cA2 ldA2,
      applyWrites U (.layer cA ldA) W = .layer cA2 ldA2 ∧
      applyWrites U (mergedOf cA ldA) W = mergedOf cA2 ldA2 := by
  induction W with
  | nil => intro cA ldA; exact ⟨cA, ldA, rfl, rfl⟩
  | cons w W ih =>
    intro cA ldA
    obtain ⟨cA1, ldA1, hw1, hb1⟩ :=
      applyWrite_merged U cA ldA w (hW w (List.mem_cons_self w W))
    obtain ⟨cA2, ldA2, hw2, hb2⟩ :=
      (fun w2 hw2 => hW w2 (List.mem_cons_of_mem w hw2)) |> fun hW2 => ih hW2 cA1 ldA1
    refine ⟨cA2, ldA2, ?_, ?_⟩
    · show applyWrites U (applyWrite U (.layer cA ldA) w) W = _
      rw [hw1, hw2]
    · show applyWrites U (applyWrite U (mergedOf cA ldA) w) W = _
      rw [hb1, hb2]

theorem deriveCnt_writeTop (s : OverlayState) (k : SPKey) (v : Bytes) :
    (s.writeTop k v).deriveCnt = s.deriveCnt := by
  cases s <;> rfl

theorem deriveCnt_get (U : Upstream) (s : OverlayState) (a : Address)
    (act : RequestType) (slot : Word) :
    ((s.get U a act slot).2).deriveCnt = s.deriveCnt := by
  obtain ⟨sp, n, h, _⟩ := get_snd_setRoot U s a act slot
  rw [h, OverlayState.deriveCnt_setRoot]

theorem deriveCnt_applyWrite (U : Upstream) (s : OverlayState) (w : WriteOp) :
    (applyWrite U s w).deriveCnt = s.deriveCnt := by
  cases w with
  | setBalance a v => exact deriveCnt_writeTop s _ _
  | setNonce a v => exact deriveCnt_writeTop s _ _
  | setCode a c => exact deriveCnt_writeTop s _ _
  | setCodeHash a h => exact deriveCnt_writeTop s _ _
  | setState a k v => exact deriveCnt_writeTop s _ _
  | suicide a => exact deriveCnt_writeTop s _ _
  | addBalance a d =>
    show ((s.get U a .getBalance 0).2.writeTop _ _).deriveCnt = _
    rw [deriveCnt_writeTop, deriveCnt_get]
  | subBalance a d =>
    show ((s.get U a .getBalance 0).2.writeTop _ _).deriveCnt = _
    rw [deriveCnt_writeTop, deriveCnt_get]
  | addLog l => cases s <;> rfl
  | addReceipt tx rc => cases s <;> rfl
  | startLogCollection tx blk => cases s <;> rfl

theorem deriveCnt_applyWrites (U : Upstream) (W : List WriteOp) :
    ∀ s, (applyWrites U s W).deriveCnt = s.deriveCnt := by
  induction W with
  | nil => intro s; rfl
  | cons w W ih =>
    intro s
    show (applyWrites U (applyWrite U s w) W).deriveCnt = _
    rw [ih, deriveCnt_applyWrite]

theorem mergeLoop_eq_self (fuel : Nat) (s : OverlayState) (id : Nat)
    (h : s.deriveCnt = id) : OverlayStateDB.mergeLoop fuel s id = some s := by
  cases fuel <;> simp [OverlayStateDB.mergeLoop, h]

theorem mergeLoop_step (fuel : Nat) (p : OverlayState) (l : LayerData) (id : Nat)
    (h : ¬(OverlayState.layer p l).deriveCnt = id) :
    OverlayStateDB.mergeLoop (fuel + 1) (.layer p l) id =
      OverlayStateDB.mergeLoop fuel
        (OverlayStateDB.mapTopSP (OverlayStateDB.SP.mergeOver l.scratchPad) p) id := by
  simp [OverlayStateDB.mergeLoop, h]

/-- C3 counterexample: merge associativity fails for log writes: with
the write sequence consisting of a single AddLog, Snapshot then the
write then MergeTo of the parent depth loses the log (MergeTo copies
only scratchpads, dropping the txLogs of the merged layer), while
applying the write directly to the parent layer keeps it: GetLogs
returns the empty list in the first run and the one-log list in the
second. -/
theorem claim_C3_counterexample :
    (OverlayStateDB.MergeTo
        (applyWrites U0 (OverlayStateDB.Snapshot ex0).2 [WriteOp.addLog 7])
        (OverlayStateDB.GetOverlayDepth ex0)).map
      (fun s => OverlayStateDB.GetLogs s 0) = some [] ∧
    OverlayStateDB.GetLogs (applyWrites U0 ex0 [WriteOp.addLog 7]) 0 = [7] := by
  constructor
  · rfl
  · rfl

/-- C3 (amended): for every facade state and every sequence of
scratchpad-only writes (setters, read-modify-write balance ops,
Suicide), Snapshot then the writes then MergeTo of the original depth
yields exactly the state obtained by applying the writes directly to
the original layer, and the overlay depth afterwards equals the
original depth. Log and receipt writes are excluded: MergeTo copies
only scratchpads, so logs and receipts recorded in merged layers are
discarded. -/
theorem claim_C3_merge (U : Upstream) (c0 : OverlayState) (W : List WriteOp)
    (hW : ∀ w ∈ W, w.isStateWrite = true) :
    OverlayStateDB.MergeTo (applyWrites U (OverlayStateDB.Snapshot c0).2 W)
        (OverlayStateDB.GetOverlayDepth c0) = some (applyWrites U c0 W) ∧
    OverlayStateDB.GetOverlayDepth (applyWrites U c0 W) =
      OverlayStateDB.GetOverlayDepth c0 := by
  have hsnap : (OverlayStateDB.Snapshot c0).2 =
      OverlayState.layer c0
        { scratchPad := SP.empty
          txLogs := fun _ => []
          receipts := fun _ => none
          currentTxHash := c0.curTx
          currentBlockHash := c0.curBlk } := rfl
  obtain ⟨cA2, ldA2, hA, hB⟩ := applyWrites_merged U W hW c0
    { scratchPad := SP.empty
      txLogs := fun _ => []
      receipts := fun _ => none
      currentTxHash := c0.curTx
      currentBlockHash := c0.curBlk }
  rw [mergedOf_fresh c0 _ rfl] at hB
  have hd2 : cA2.deriveCnt = c0.deriveCnt := by
    have h1 : (applyWrites U (OverlayStateDB.Snapshot c0).2 W).deriveCnt =
        c0.deriveCnt + 1 := by
      rw [hsnap, deriveCnt_applyWrites]
      rfl
    rw [hsnap, hA] at h1
    exact Nat.succ_injective h1
  constructor
  · rw [hsnap, hA]
    show OverlayStateDB.mergeLoop (cA2.deriveCnt + 1) (.layer cA2 ldA2) c0.deriveCnt =
      some (applyWrites U c0 W)
    rw [mergeLoop_step cA2.deriveCnt cA2 ldA2 c0.deriveCnt
        (by show ¬(cA2.deriveCnt + 1 = c0.deriveCnt); omega)]
    rw [hB]
    exact mergeLoop_eq_self _ _ _ (by rw [deriveCnt_mapTopSP]; exact hd2)
  · show (applyWrites U c0 W).deriveCnt = c0.deriveCnt
    exact deriveCnt_applyWrites U W c0

/-- C3 witness: a fresh facade, Snapshot, one SetBalance, MergeTo the
original depth, with the scratchpad-only hypothesis discharged on the
concrete write list. -/
theorem claim_C3_witness :
    (∀ w ∈ [WriteOp.setBalance 1 200], w.isStateWrite = true) ∧
    (OverlayStateDB.MergeTo
        (applyWrites U0 (OverlayStateDB.Snapshot ex0).2 [WriteOp.setBalance 1 200])
        (OverlayStateDB.GetOverlayDepth ex0) =
      some (applyWrites U0 ex0 [WriteOp.setBalance 1 200]) ∧
     OverlayStateDB.GetOverlayDepth (applyWrites U0 ex0 [WriteOp.setBalance 1 200]) =
       OverlayStateDB.GetOverlayDepth ex0) :=
  ⟨by decide, claim_C3_merge U0 ex0 [WriteOp.setBalance 1 200] (by decide)⟩
